import Mathlib

/-!
Verification of the documentation_creator services against their specification.

The definitions below are shallow embeddings of the JavaScript code in
`src/backend/services/exportService.js` and `src/backend/services/githubService.js`
(the latter file contains both the `GitHubService` and the `OpenRouterService`
classes).  JavaScript strings are modelled by Lean `String`; all string
primitives used by the code (`startsWith`, `includes`, `substring`, `split`,
`trim`, `toLowerCase`, `toUpperCase`, `join`) are re-implemented over the
character list so that every definition evaluates inside the Lean kernel.
JavaScript's Unicode-aware `trim`/case conversion is modelled on the ASCII
range (plus NBSP for `trim`), which is exact for every string the services
ever test against these primitives.
-/

namespace DocCreator

/-- Decidable equality of `Except` results, used to evaluate the embedded
services on concrete inputs. -/
instance exceptDecidableEq {ε α : Type} [DecidableEq ε] [DecidableEq α] :
    DecidableEq (Except ε α) := fun a b =>
  match a, b with
  | .ok x, .ok y =>
    if h : x = y then isTrue (by rw [h])
    else isFalse (fun hc => h (Except.ok.inj hc))
  | .error x, .error y =>
    if h : x = y then isTrue (by rw [h])
    else isFalse (fun hc => h (Except.error.inj hc))
  | .ok _, .error _ => isFalse (fun hc => Except.noConfusion hc)
  | .error _, .ok _ => isFalse (fun hc => Except.noConfusion hc)

/-- JS `s.startsWith(p)`. -/
def jsStartsWith (s p : String) : Bool := List.isPrefixOf p.data s.data

/-- Containment of `needle` as a contiguous sublist of `hay`. -/
def listInfixCheck {α : Type} [DecidableEq α] (needle : List α) : List α → Bool
  | [] => decide (needle = [])
  | x :: xs => List.isPrefixOf needle (x :: xs) || listInfixCheck needle xs

/-- JS `s.includes(p)` (substring containment). -/
def jsIncludes (s p : String) : Bool := listInfixCheck p.data s.data

/-- JS `s.substring(n)` (drop the first `n` code units; ASCII-exact model). -/
def jsSubstringFrom (s : String) (n : Nat) : String := String.mk (s.data.drop n)

/-- Whitespace recognised by JS `trim` (ASCII control spaces and NBSP). -/
def jsIsWhitespace (c : Char) : Bool :=
  c = ' ' || c = '\t' || c = '\n' || c = '\r' || c.toNat = 11 || c.toNat = 12 || c.toNat = 160

/-- JS `s.trim()`. -/
def jsTrim (s : String) : String :=
  String.mk (((s.data.dropWhile jsIsWhitespace).reverse.dropWhile jsIsWhitespace).reverse)

/-- Split a character list at every occurrence of `c` (JS `split` with a
one-character separator). -/
def splitOnCharList (c : Char) : List Char → List (List Char)
  | [] => [[]]
  | x :: xs =>
    match splitOnCharList c xs with
    | [] => [[x]]
    | h :: t => if x = c then [] :: h :: t else (x :: h) :: t

/-- JS `s.split('\n')`. -/
def jsSplitNewline (s : String) : List String :=
  (splitOnCharList '\n' s.data).map String.mk

/-- ASCII lower-casing of one character (model of JS `toLowerCase`). -/
def charLower (c : Char) : Char :=
  if 65 ≤ c.toNat ∧ c.toNat ≤ 90 then Char.ofNat (c.toNat + 32) else c

/-- ASCII upper-casing of one character (model of JS `toUpperCase`). -/
def charUpper (c : Char) : Char :=
  if 97 ≤ c.toNat ∧ c.toNat ≤ 122 then Char.ofNat (c.toNat - 32) else c

/-- JS `s.toLowerCase()` (ASCII model). -/
def jsToLowerCase (s : String) : String := String.mk (s.data.map charLower)

/-- JS `s.toUpperCase()` (ASCII model). -/
def jsToUpperCase (s : String) : String := String.mk (s.data.map charUpper)

/-- JS `s.charAt(0).toUpperCase() + s.slice(1)` as used for framework names. -/
def jsCapitalize (s : String) : String :=
  match s.data with
  | [] => ""
  | c :: cs => String.mk (charUpper c :: cs)

/-! ## Export service: `markdownToDOCX` (exportService.js lines 170-293)

The renderer walks `markdown.split('\n')` keeping the mutable state
`inCodeBlock : boolean` and `codeBlockContent : string[]`; each produced
`Paragraph` is abstracted to a `DocxElem` recording exactly the
text/heading-level/indentation distinctions the code makes. -/

/-- One element pushed onto `children` by `markdownToDOCX`:
a heading of a given level, a literal-text (Courier) code paragraph,
an indented blockquote paragraph, an empty paragraph, or a plain paragraph. -/
inductive DocxElem where
  | heading (level : Nat) (text : String)
  | codeBlock (text : String)
  | blockquote (text : String)
  | empty
  | para (text : String)
deriving DecidableEq, Repr

/-- The `if`/`else if` chain of `markdownToDOCX` for a line that is outside a
code block and is not a fence line. -/
def classifyLine (line : String) : DocxElem :=
  if jsStartsWith line "# " then .heading 1 (jsSubstringFrom line 2)
  else if jsStartsWith line "## " then .heading 2 (jsSubstringFrom line 3)
  else if jsStartsWith line "### " then .heading 3 (jsSubstringFrom line 4)
  else if jsStartsWith line "#### " then .heading 4 (jsSubstringFrom line 5)
  else if jsStartsWith line "##### " then .heading 5 (jsSubstringFrom line 6)
  else if jsStartsWith line "###### " then .heading 6 (jsSubstringFrom line 7)
  else if jsStartsWith line "> " then .blockquote (jsSubstringFrom line 2)
  else if jsTrim line = "" then .empty
  else .para line

/-- A line opening or closing a fenced code block (``line.startsWith('```')``). -/
def isFenceLine (line : String) : Bool := jsStartsWith line "```"

/-- The loop of `markdownToDOCX` over the remaining lines, threading
`inCodeBlock` and `codeBlockContent`.  Note that when the input ends while
`inCodeBlock` is still true, the accumulated `codeBlockContent` is discarded
without emitting anything, exactly as in the source. -/
def docxLoop : List String → Bool → List String → List DocxElem
  | [], _, _ => []
  | line :: rest, inCodeBlock, codeBlockContent =>
    if isFenceLine line then
      if inCodeBlock then
        .codeBlock (String.intercalate "\n" codeBlockContent) :: docxLoop rest false []
      else
        docxLoop rest true codeBlockContent
    else if inCodeBlock then
      docxLoop rest true (codeBlockContent ++ [line])
    else
      classifyLine line :: docxLoop rest inCodeBlock codeBlockContent

/-- `markdownToDOCX` (exportService.js line 170): the sequence of paragraph /
heading elements placed in the document's single section. -/
def markdownToDOCX (markdown : String) : List DocxElem :=
  docxLoop (jsSplitNewline markdown) false []

/-! ### Specification-side renderer for the DOCX claim

`specClassify`/`specDocx` follow the wording of the specification: heading
markers `#` through `######` produce headings of the corresponding level, a
fenced block delimited by triple-backtick lines produces one literal-text
paragraph containing the fenced lines, a `> `-prefixed line an indented
paragraph, a blank line an empty paragraph, and any other non-empty line a
plain paragraph with the line's text unchanged. -/

/-- The heading marker `#`…`######` (followed by a space) opening `line`,
if any; stated via `List.replicate` rather than the implementation's
six-way branch. -/
def specHeadingLevel (line : String) : Option Nat :=
  (List.range 6).findSome? fun i =>
    if jsStartsWith line (String.mk (List.replicate (i + 1) '#' ++ [' '])) then
      some (i + 1)
    else none

/-- Per-line translation as worded by the specification. -/
def specClassify (line : String) : DocxElem :=
  match specHeadingLevel line with
  | some k => .heading k (jsSubstringFrom line (k + 1))
  | none =>
    if jsStartsWith line "> " then .blockquote (jsSubstringFrom line 2)
    else if jsTrim line = "" then .empty
    else .para line

/-- Dropping a prefix never lengthens a list (helper for termination and
for the fence-decomposition lemmas). -/
theorem length_dropWhile_le {α : Type} (p : α → Bool) (l : List α) :
    (l.dropWhile p).length ≤ l.length := by
  induction l with
  | nil => simp [List.dropWhile]
  | cons a t ih =>
    simp only [List.dropWhile]
    split
    · exact le_trans ih (by simp)
    · simp

/-- Whole-input translation as worded by the specification, with an explicit
fuel argument so the recursion is structural: lines translate independently
via `specClassify`, except that a fence line opens a code block whose lines
(up to the next fence line) become one literal-text paragraph. -/
def specDocxAux : Nat → List String → List DocxElem
  | 0, _ => []
  | _, [] => []
  | fuel + 1, line :: rest =>
    if isFenceLine line then
      let fenced := rest.takeWhile (fun l => !isFenceLine l)
      let after := rest.dropWhile (fun l => !isFenceLine l)
      .codeBlock (String.intercalate "\n" fenced) :: specDocxAux fuel after.tail
    else
      specClassify line :: specDocxAux fuel rest

/-- Whole-input translation as worded by the specification (the fuel
`lines.length` always suffices, since each step consumes at least one line). -/
def specDocx (lines : List String) : List DocxElem :=
  specDocxAux lines.length lines

/-- Number of fence lines (lines starting with three backticks) in the input. -/
def countFences (lines : List String) : Nat := lines.countP (fun l => isFenceLine l)

/-- `docxChildren` is `markdownToDOCX` after the initial `split('\n')`. -/
def docxChildren (lines : List String) : List DocxElem := docxLoop lines false []

theorem markdownToDOCX_eq_children (md : String) :
    markdownToDOCX md = docxChildren (jsSplitNewline md) := rfl

/-- The implementation's six-way heading branch agrees with the
specification-side classifier. -/
theorem classifyLine_eq_specClassify (line : String) :
    classifyLine line = specClassify line := by
  have e1 : String.mk (List.replicate 1 '#' ++ [' ']) = "# " := rfl
  have e2 : String.mk (List.replicate 2 '#' ++ [' ']) = "## " := rfl
  have e3 : String.mk (List.replicate 3 '#' ++ [' ']) = "### " := rfl
  have e4 : String.mk (List.replicate 4 '#' ++ [' ']) = "#### " := rfl
  have e5 : String.mk (List.replicate 5 '#' ++ [' ']) = "##### " := rfl
  have e6 : String.mk (List.replicate 6 '#' ++ [' ']) = "###### " := rfl
  have r6 : List.range 6 = [0, 1, 2, 3, 4, 5] := rfl
  simp only [classifyLine, specClassify, specHeadingLevel, r6, List.findSome?_cons,
    List.findSome?_nil, e1, e2, e3, e4, e5, e6]
  by_cases h1 : jsStartsWith line "# " = true
  · simp [h1]
  · simp only [Bool.not_eq_true] at h1
    simp only [h1, if_neg, Bool.false_eq_true, if_false]
    by_cases h2 : jsStartsWith line "## " = true
    · simp [h2]
    · simp only [Bool.not_eq_true] at h2
      simp only [h2, Bool.false_eq_true, if_false]
      by_cases h3 : jsStartsWith line "### " = true
      · simp [h3]
      · simp only [Bool.not_eq_true] at h3
        simp only [h3, Bool.false_eq_true, if_false]
        by_cases h4 : jsStartsWith line "#### " = true
        · simp [h4]
        · simp only [Bool.not_eq_true] at h4
          simp only [h4, Bool.false_eq_true, if_false]
          by_cases h5 : jsStartsWith line "##### " = true
          · simp [h5]
          · simp only [Bool.not_eq_true] at h5
            simp only [h5, Bool.false_eq_true, if_false]
            by_cases h6 : jsStartsWith line "###### " = true
            · simp [h6]
            · simp only [Bool.not_eq_true] at h6
              simp only [h6, Bool.false_eq_true, if_false]

/-- Inside an open code block, `docxLoop` accumulates lines until the closing
fence and then emits one literal-text paragraph containing them. -/
theorem docxLoop_flush (mid : List String) (f : String) (tl acc : List String)
    (hmid : ∀ l ∈ mid, isFenceLine l = false) (hf : isFenceLine f = true) :
    docxLoop (mid ++ f :: tl) true acc =
      .codeBlock (String.intercalate "\n" (acc ++ mid)) :: docxLoop tl false [] := by
  induction mid generalizing acc with
  | nil => simp [docxLoop, hf]
  | cons m mid ih =>
    have hm : isFenceLine m = false := hmid m (by simp)
    have hmid2 : ∀ l ∈ mid, isFenceLine l = false := fun l hl => hmid l (by simp [hl])
    have step : docxLoop ((m :: mid) ++ f :: tl) true acc =
        docxLoop (mid ++ f :: tl) true (acc ++ [m]) := by
      simp [docxLoop, hm]
    rw [step, ih (acc ++ [m]) hmid2]
    simp

/-- A list is a boolean prefix of itself followed by anything. -/
theorem isPrefixOf_self_append {α : Type} [DecidableEq α] (l t : List α) :
    List.isPrefixOf l (l ++ t) = true := by
  induction l with
  | nil => simp [List.isPrefixOf]
  | cons a as ih => simp [List.isPrefixOf, ih]

/-- The head of `dropWhile p` falsifies `p`. -/
theorem dropWhile_head_false {α : Type} (p : α → Bool) (l : List α) (x : α) (xs : List α)
    (h : l.dropWhile p = x :: xs) : p x = false := by
  induction l with
  | nil => simp [List.dropWhile] at h
  | cons a t ih =>
    simp only [List.dropWhile_cons] at h
    by_cases ha : p a = true
    · exact ih (by simpa [ha] using h)
    · simp only [Bool.not_eq_true] at ha
      simp only [ha, Bool.false_eq_true, if_false, List.cons.injEq] at h
      rw [← h.1]
      exact ha

/-- Core equivalence for the DOCX claim: with balanced fences, the
implementation loop agrees with the specification-side translation at any
sufficient fuel. -/
theorem docxLoop_eq_specDocxAux (fuel : Nat) (ls : List String)
    (hlen : ls.length ≤ fuel) (heven : countFences ls % 2 = 0) :
    docxLoop ls false [] = specDocxAux fuel ls := by
  induction fuel generalizing ls with
  | zero =>
    have : ls = [] := List.length_eq_zero.mp (Nat.le_zero.mp hlen)
    subst this
    rfl
  | succ fuel ih =>
    match ls with
    | [] => rfl
    | line :: rest =>
      by_cases hf : isFenceLine line = true
      · -- fence: the rest must contain a closing fence
        have hcnt : countFences (line :: rest) = countFences rest + 1 := by
          simp [countFences, List.countP_cons, hf]
        have hodd : countFences rest % 2 = 1 := by
          rw [hcnt] at heven
          omega
        have hsplit : rest.takeWhile (fun l => !isFenceLine l) ++
            rest.dropWhile (fun l => !isFenceLine l) = rest :=
          List.takeWhile_append_dropWhile (fun l => !isFenceLine l) rest
        have htw : ∀ l ∈ rest.takeWhile (fun l => !isFenceLine l), isFenceLine l = false := by
          intro l hl
          have := List.mem_takeWhile_imp hl
          simpa using this
        have htwcnt : countFences (rest.takeWhile (fun l => !isFenceLine l)) = 0 := by
          simp only [countFences]
          rw [List.countP_eq_zero]
          intro a ha
          simp [htw a ha]
        obtain ⟨f, tl, hdw⟩ :
            ∃ f tl, rest.dropWhile (fun l => !isFenceLine l) = f :: tl := by
          match hx : rest.dropWhile (fun l => !isFenceLine l) with
          | [] =>
            exfalso
            have h0 : rest.takeWhile (fun l => !isFenceLine l) = rest := by
              rw [hx, List.append_nil] at hsplit
              exact hsplit
            have : countFences rest = 0 := by
              conv_lhs => rw [← h0]
              exact htwcnt
            omega
          | f :: tl => exact ⟨f, tl, rfl⟩
        have hff : isFenceLine f = true := by
          have := dropWhile_head_false (fun l => !isFenceLine l) rest f tl hdw
          simpa using this
        have hrest : rest = rest.takeWhile (fun l => !isFenceLine l) ++ f :: tl := by
          conv_lhs => rw [← hsplit]
          rw [hdw]
        have htlcnt : countFences tl % 2 = 0 := by
          have hcr : countFences rest =
              countFences (rest.takeWhile (fun l => !isFenceLine l)) + countFences (f :: tl) := by
            conv_lhs => rw [hrest]
            simp [countFences, List.countP_append]
          rw [hcr, htwcnt] at hodd
          simp only [countFences, List.countP_cons, hff, if_pos] at hodd
          simp only [countFences]
          omega
        have htllen : tl.length ≤ fuel := by
          have h1 : (rest.dropWhile (fun l => !isFenceLine l)).length ≤ rest.length :=
            length_dropWhile_le (fun l => !isFenceLine l) rest
          rw [hdw] at h1
          simp only [List.length_cons] at h1 hlen
          omega
        calc docxLoop (line :: rest) false []
            = docxLoop rest true [] := by simp [docxLoop, hf]
          _ = .codeBlock (String.intercalate "\n" (rest.takeWhile (fun l => !isFenceLine l))) ::
                docxLoop tl false [] := by
              conv_lhs => rw [hrest]
              rw [docxLoop_flush _ f tl [] htw hff]
              simp
          _ = specDocxAux (fuel + 1) (line :: rest) := by
              rw [ih tl htllen htlcnt]
              simp only [specDocxAux, hf, if_pos]
              rw [hdw]
              simp
      · have hfr : isFenceLine line = false := by simpa using hf
        have hcnt : countFences (line :: rest) = countFences rest := by
          simp [countFences, List.countP_cons, hfr]
        have hrlen : rest.length ≤ fuel := by
          simp only [List.length_cons] at hlen
          omega
        simp only [docxLoop, hfr, Bool.false_eq_true, if_false, specDocxAux]
        rw [ih rest hrlen (hcnt ▸ heven), classifyLine_eq_specClassify]

/-- C1: for a Markdown string whose fenced code blocks are all closed (an even
number of fence lines), `markdownToDOCX` translates the input exactly as the
specification describes: heading markers `#`…`######` yield headings of the
corresponding level with the marker stripped, a fenced block yields one
literal-text paragraph containing the fenced lines, `> ` yields an indented
paragraph, a blank line an empty paragraph, and any other non-empty line a
plain paragraph with its text unchanged. -/
theorem markdownToDOCX_line_translation (md : String)
    (h : countFences (jsSplitNewline md) % 2 = 0) :
    markdownToDOCX md = specDocx (jsSplitNewline md) :=
  docxLoop_eq_specDocxAux (jsSplitNewline md).length (jsSplitNewline md) le_rfl h

theorem markdownToDOCX_line_translation_witness :
    countFences (jsSplitNewline "# Title\n```\ncode here\n```\n> q\n\nhello") % 2 = 0 ∧
      markdownToDOCX "# Title\n```\ncode here\n```\n> q\n\nhello" =
        specDocx (jsSplitNewline "# Title\n```\ncode here\n```\n> q\n\nhello") :=
  ⟨by decide, markdownToDOCX_line_translation _ (by decide)⟩

/-- One step of the mutable state `(inCodeBlock, codeBlockContent)` of
`markdownToDOCX`, as updated by one loop iteration. -/
def docxStep : Bool × List String → String → Bool × List String
  | (inCodeBlock, codeBlockContent), line =>
    if isFenceLine line then
      if inCodeBlock then (false, []) else (true, codeBlockContent)
    else if inCodeBlock then (true, codeBlockContent ++ [line])
    else (inCodeBlock, codeBlockContent)

/-- One iteration of `docxLoop`, written as emitted elements followed by the
loop on the remaining lines in the updated state. -/
theorem docxLoop_cons (line : String) (rest : List String) (b : Bool) (acc : List String) :
    docxLoop (line :: rest) b acc =
      (if isFenceLine line then
        (if b then [DocxElem.codeBlock (String.intercalate "\n" acc)] else [])
      else if b then [] else [classifyLine line]) ++
        docxLoop rest (docxStep (b, acc) line).1 (docxStep (b, acc) line).2 := by
  by_cases hf : isFenceLine line = true
  · cases b <;> simp [docxLoop, docxStep, hf]
  · have hf0 : isFenceLine line = false := by simpa using hf
    cases b <;> simp [docxLoop, docxStep, hf0]

/-- `docxLoop` splits over an append: the elements of the prefix, then the
loop on the suffix started in the state reached after the prefix. -/
theorem docxLoop_append (pre : List String) :
    ∀ (suf : List String) (b : Bool) (acc : List String),
      docxLoop (pre ++ suf) b acc =
        docxLoop pre b acc ++
          docxLoop suf (pre.foldl docxStep (b, acc)).1 (pre.foldl docxStep (b, acc)).2 := by
  induction pre with
  | nil => intro suf b acc; rfl
  | cons l pre ih =>
    intro suf b acc
    rw [List.cons_append, docxLoop_cons, ih, docxLoop_cons, List.foldl_cons,
      List.append_assoc]

/-- Inside a code block that never closes, the loop emits nothing. -/
theorem docxLoop_open_block_drops (suf : List String)
    (h : ∀ l ∈ suf, isFenceLine l = false) :
    ∀ acc, docxLoop suf true acc = [] := by
  induction suf with
  | nil => intro acc; rfl
  | cons l suf ih =>
    intro acc
    have hl : isFenceLine l = false := h l (by simp)
    have hrest : ∀ x ∈ suf, isFenceLine x = false := fun x hx => h x (by simp [hx])
    simp [docxLoop, hl, ih hrest]

/-- The flag component of one state update: it toggles exactly on fence
lines. -/
theorem docxStep_fst (st : Bool × List String) (line : String) :
    (docxStep st line).1 = (st.1 ^^ isFenceLine line) := by
  rcases st with ⟨b, acc⟩
  by_cases hf : isFenceLine line = true
  · cases b <;> simp [docxStep, hf]
  · have hf0 : isFenceLine line = false := by simpa using hf
    cases b <;> simp [docxStep, hf0]

/-- After processing a list of lines, `inCodeBlock` is the initial flag
XOR-ed with the parity of the number of fence lines seen. -/
theorem docxStep_parity (pre : List String) :
    ∀ (b : Bool) (acc : List String),
      (pre.foldl docxStep (b, acc)).1 = (b ^^ decide (countFences pre % 2 = 1)) := by
  induction pre with
  | nil => intro b acc; simp [countFences]
  | cons l pre ih =>
    intro b acc
    rw [List.foldl_cons]
    rcases hst : docxStep (b, acc) l with ⟨b2, acc2⟩
    have hb2 : b2 = (b ^^ isFenceLine l) := by
      have h := docxStep_fst (b, acc) l
      rw [hst] at h
      exact h
    rw [ih b2 acc2, hb2]
    by_cases hf : isFenceLine l = true
    · have hc : countFences (l :: pre) = countFences pre + 1 := by
        simp [countFences, List.countP_cons, hf]
      rw [hc]
      rcases Nat.mod_two_eq_zero_or_one (countFences pre) with h2 | h2 <;>
        cases b <;> simp [hf, h2, Nat.add_mod]
    · have hf0 : isFenceLine l = false := by simpa using hf
      have hc : countFences (l :: pre) = countFences pre := by
        simp [countFences, List.countP_cons, hf0]
      rw [hc, hf0]
      cases b <;> simp

/-- C10: if the split lines of the input consist of a balanced prefix, then a
fence line (any line starting with three backticks, tagged fences such as
"```js" included) that is never closed (no later line is a fence line),
every line after that last fence produces no element: the output equals the
output for the input truncated right after the unmatched fence. -/
theorem markdownToDOCX_unclosed_fence_drops (md : String) (pre : List String)
    (f : String) (suf : List String)
    (hsplit : jsSplitNewline md = pre ++ f :: suf)
    (hf : isFenceLine f = true)
    (hpre : countFences pre % 2 = 0)
    (hsuf : ∀ l ∈ suf, isFenceLine l = false) :
    markdownToDOCX md = docxChildren (pre ++ [f]) := by
  have hstate : (pre.foldl docxStep (false, [])).1 = false := by
    rw [docxStep_parity pre false []]
    simp [hpre]
  have key : ∀ tail : List String, (∀ l ∈ tail, isFenceLine l = false) →
      docxLoop (pre ++ f :: tail) false [] = docxLoop pre false [] := by
    intro tail htail
    rw [docxLoop_append pre (f :: tail) false []]
    rcases hst : pre.foldl docxStep (false, []) with ⟨b1, acc1⟩
    have hb1 : b1 = false := by
      have := hstate
      rw [hst] at this
      exact this
    subst hb1
    simp only [docxLoop, hf, if_pos, Bool.false_eq_true, if_false]
    rw [docxLoop_open_block_drops tail htail acc1]
    simp
  rw [markdownToDOCX_eq_children, hsplit]
  show docxLoop (pre ++ f :: suf) false [] = docxLoop (pre ++ [f]) false []
  rw [key suf hsuf, key [] (by simp)]

theorem markdownToDOCX_unclosed_fence_drops_witness :
    jsSplitNewline "# T\n```js\nhello\nworld" = ["# T"] ++ "```js" :: ["hello", "world"] ∧
      isFenceLine "```js" = true ∧
      countFences ["# T"] % 2 = 0 ∧
      markdownToDOCX "# T\n```js\nhello\nworld" = docxChildren (["# T"] ++ ["```js"]) :=
  ⟨by decide, by decide, by decide,
    markdownToDOCX_unclosed_fence_drops "# T\n```js\nhello\nworld" ["# T"] "```js"
      ["hello", "world"] (by decide) (by decide) (by decide) (by decide)⟩

/-- C1 counterexample: on an input with an unclosed fence, the non-marker
line "hello" produces no plain paragraph at all — the output is empty — so
the per-line translation described by the claim does not hold for every
Markdown string. -/
theorem markdownToDOCX_unclosed_counterexample :
    markdownToDOCX "```\nhello" = [] ∧
      DocxElem.para "hello" ∉ markdownToDOCX "```\nhello" := by
  constructor
  · decide
  · decide

/-! ## GitHub service (githubService.js, `GitHubService` class)

Upstream HTTP responses are modelled as `Except Nat payload` values: `.ok`
carries the already-extracted response payload, `.error status` a failing
response with its HTTP status code.  The service's `catch` blocks never
inspect the status, which is what claims C2 and C5 are about. -/

namespace GitHubService

/-- Result of `parseGitHubUrl`. -/
structure ParsedGitHubUrl where
  owner : String
  repo : String
  branch : String
deriving DecidableEq, Repr

/-- JS `String.replace` with a string pattern: replaces only the first
occurrence of `pat` by `repl`. -/
def replaceFirst (pat repl : List Char) : List Char → List Char
  | [] => if List.isPrefixOf pat [] then repl else []
  | c :: cs =>
    if List.isPrefixOf pat (c :: cs) then repl ++ (c :: cs).drop pat.length
    else c :: replaceFirst pat repl cs

/-- One attempt of the regex
`github\.com\/([^\/]+)\/([^\/]+)(?:\/tree\/([^\/]+))?` at the current
position: the literal `github.com/`, a nonempty run of non-slash characters
(group 1), a slash, a nonempty run of non-slash characters (group 2), and
optionally `/tree/` followed by a nonempty run of non-slash characters
(group 3).  Greedy matching of `[^\/]+` is deterministic here because the
character class excludes the following delimiter. -/
def nonSlash (c : Char) : Bool := c ≠ '/'

def tryMatchAt (cs : List Char) : Option (List Char × List Char × Option (List Char)) :=
  if List.isPrefixOf "github.com/".data cs then
    let rest := cs.drop ("github.com/".data.length)
    let owner := rest.takeWhile nonSlash
    if owner = [] then none
    else
      match rest.dropWhile nonSlash with
      | d :: rest2 =>
        if d = '/' then
          let repo := rest2.takeWhile nonSlash
          if repo = [] then none
          else
            let rest3 := rest2.dropWhile nonSlash
            let branch :=
              if List.isPrefixOf "/tree/".data rest3 then
                let b := (rest3.drop ("/tree/".data.length)).takeWhile nonSlash
                if b = [] then none else some b
              else none
            some (owner, repo, branch)
        else none
      | [] => none
  else none

/-- Unanchored regex search: try every start position left to right. -/
def findUrlMatch : List Char → Option (List Char × List Char × Option (List Char))
  | [] => none
  | c :: cs =>
    match tryMatchAt (c :: cs) with
    | some r => some r
    | none => findUrlMatch cs

/-- `parseGitHubUrl` (githubService.js line 54): throws on no regex match,
otherwise returns owner, repo with the first `.git` removed, and the
`/tree/` branch or `main`. -/
def parseGitHubUrl (url : String) : Except String ParsedGitHubUrl :=
  match findUrlMatch url.data with
  | none => .error "Invalid GitHub URL format"
  | some (owner, repo, branch) =>
    .ok { owner := String.mk owner,
          repo := String.mk (replaceFirst ".git".data [] repo),
          branch := match branch with | some b => String.mk b | none => "main" }

/-- Payload extracted from a successful `GET /repos/:owner/:repo` response. -/
structure RepoInfo where
  name : String
  description : Option String
  language : Option String
  stars : Nat
  forks : Nat
  size : Nat
  defaultBranch : String
  topics : List String
  homepage : Option String
  license : Option String
deriving DecidableEq, Repr

/-- `getRepoInfo` (githubService.js line 67): every failing response, no
matter its status, is replaced by the same generic error message. -/
def getRepoInfo (resp : Except Nat RepoInfo) : Except String RepoInfo :=
  match resp with
  | .ok info => .ok info
  | .error _ => .error "Failed to fetch repository information"

/-- One entry of the recursive git tree response (`type` is `blob` for
files). -/
structure TreeItem where
  path : String
  itemType : String
  size : Option Nat
  sha : String
  url : String
deriving DecidableEq, Repr

/-- One file record produced by `getRepoFiles`. -/
structure RepoFile where
  name : String
  size : Option Nat
  sha : String
  url : String
  language : String
deriving DecidableEq, Repr

/-- The extension-to-language map of `GitHubService.detectLanguage`
(githubService.js line 244). -/
def languageMap : List (String × String) :=
  [("js", "JavaScript"), ("ts", "TypeScript"), ("jsx", "React JSX"),
   ("tsx", "React TSX"), ("py", "Python"), ("java", "Java"), ("cpp", "C++"),
   ("c", "C"), ("cs", "C#"), ("php", "PHP"), ("rb", "Ruby"), ("go", "Go"),
   ("rs", "Rust"), ("swift", "Swift"), ("kt", "Kotlin"), ("scala", "Scala"),
   ("html", "HTML"), ("css", "CSS"), ("scss", "SCSS"), ("sass", "Sass"),
   ("json", "JSON"), ("xml", "XML"), ("yaml", "YAML"), ("yml", "YAML"),
   ("md", "Markdown"), ("txt", "Text"), ("sql", "SQL"), ("sh", "Shell"),
   ("bash", "Bash")]

/-- JS `filename.split('.').pop()`: the segment after the last dot, or the
whole string when there is no dot. -/
def lastDotSegment (s : String) : String :=
  String.mk ((s.data.reverse.takeWhile (fun c => c ≠ '.')).reverse)

/-- `GitHubService.detectLanguage` (githubService.js line 242). -/
def detectLanguage (filename : String) : String :=
  match (languageMap.lookup (jsToLowerCase (lastDotSegment filename))) with
  | some l => l
  | none => "Unknown"

/-- Strict lexicographic comparison on character lists (code-point order:
the model of the `localeCompare` comparator, with which it agrees on the
ASCII file names involved). -/
def lexLt : List Char → List Char → Bool
  | [], [] => false
  | [], _ :: _ => true
  | _ :: _, [] => false
  | a :: as, b :: bs =>
    if a.toNat < b.toNat then true
    else if b.toNat < a.toNat then false
    else lexLt as bs

/-- Insert a file into an already sorted list, after any file comparing
less-or-equal (preserving encounter order among equal names). -/
def insertByName (f : RepoFile) : List RepoFile → List RepoFile
  | [] => [f]
  | g :: gs => if lexLt f.name.data g.name.data then f :: g :: gs else g :: insertByName f gs

/-- Stable sort modelling `Array.prototype.sort((a, b) =>
a.name.localeCompare(b.name))`: JS sort is stable, so the result is the
unique name-sorted rearrangement preserving encounter order of equal names,
which stable insertion sort computes. -/
def sortByName (files : List RepoFile) : List RepoFile :=
  files.foldl (fun acc f => insertByName f acc) []

/-- `getRepoFiles` (githubService.js line 91): failures are swallowed and
yield the empty list; a response without a tree also yields the empty list;
otherwise blobs are mapped to file records and sorted by name. -/
def getRepoFiles (resp : Except Nat (Option (List TreeItem))) : List RepoFile :=
  match resp with
  | .error _ => []
  | .ok none => []
  | .ok (some tree) =>
    sortByName ((tree.filter (fun item => item.itemType = "blob")).map
      (fun item => ⟨item.path, item.size, item.sha, item.url, detectLanguage item.path⟩))

/-- Node `path.extname(name)` (POSIX): the suffix of the basename from its
last dot, or `""` when the basename has no dot or only a leading dot.
(The degenerate basename `".."`, for which Node returns `""` and this model
`"."`, cannot occur as a blob path.) -/
def extname (filename : String) : String :=
  let base := (filename.data.reverse.takeWhile (fun c => c ≠ '/')).reverse
  let afterDot := base.reverse.takeWhile (fun c => c ≠ '.')
  if afterDot.length = base.length then ""
  else if base.length ≤ afterDot.length + 1 then ""
  else String.mk ('.' :: afterDot.reverse)

/-- The `if`/`else if` extension chain of `analyzeRepository` that feeds
`languageCounts` (githubService.js lines 186-208); `none` when the
extension counts towards no language. -/
def languageOfExt (ext : String) : Option String :=
  if ext ∈ [".js", ".jsx", ".ts", ".tsx"] then some "JavaScript"
  else if ext ∈ [".py"] then some "Python"
  else if ext ∈ [".java"] then some "Java"
  else if ext ∈ [".cpp", ".c", ".h", ".hpp"] then some "C++"
  else if ext ∈ [".php"] then some "PHP"
  else if ext ∈ [".rb"] then some "Ruby"
  else if ext ∈ [".go"] then some "Go"
  else if ext ∈ [".rs"] then some "Rust"
  else if ext ∈ [".swift"] then some "Swift"
  else if ext ∈ [".kt"] then some "Kotlin"
  else if ext ∈ [".scala"] then some "Scala"
  else none

/-- The ordered framework indicator table (githubService.js lines 161-176). -/
def frameworkIndicators : List (String × List String) :=
  [("react", ["package.json", "jsx", "tsx"]),
   ("vue", ["vue.config.js", ".vue"]),
   ("angular", ["angular.json", "ng-"]),
   ("express", ["express", "app.js", "server.js"]),
   ("django", ["manage.py", "settings.py"]),
   ("flask", ["app.py", "flask"]),
   ("spring", ["pom.xml", "build.gradle"]),
   ("laravel", ["artisan", "composer.json"]),
   ("rails", ["Gemfile", "config.ru"]),
   ("next", ["next.config.js"]),
   ("nuxt", ["nuxt.config.js"]),
   ("gatsby", ["gatsby-config.js"]),
   ("svelte", ["svelte.config.js"]),
   ("astro", ["astro.config.mjs"])]

/-- The inner `for (const [framework, indicators] of ...)` loop with its
`break`: the first table entry (in table order) with an indicator occurring
as a substring of the lower-cased file name. -/
def fileFrameworkMatch (fileNameLower : String) : Option String :=
  frameworkIndicators.findSome? fun fw =>
    if fw.2.any (fun ind => jsIncludes fileNameLower ind) then some fw.1 else none

/-- Increment the count of `k` in an insertion-ordered association list
(model of `obj[k] = (obj[k] || 0) + 1` on a JS object, whose string keys
enumerate in insertion order). -/
def bump : List (String × Nat) → String → List (String × Nat)
  | [], k => [(k, 1)]
  | (k0, n) :: rest, k =>
    if k0 = k then (k0, n + 1) :: rest else (k0, n) :: bump rest k

/-- The mutable state threaded through the `for (const file of files)` loop
of `analyzeRepository`. -/
structure AnalyzeState where
  fileTypes : List (String × Nat)
  languageCounts : List (String × Nat)
  framework : String
  hasTests : Bool
  hasDocs : Bool
  hasDocker : Bool
  hasCI : Bool
deriving DecidableEq, Repr

/-- One iteration of the `analyzeRepository` file loop. -/
def analyzeFileStep (st : AnalyzeState) (file : RepoFile) : AnalyzeState :=
  let ext := jsToLowerCase (extname file.name)
  let fileName := jsToLowerCase file.name
  { fileTypes := bump st.fileTypes ext,
    languageCounts :=
      match languageOfExt ext with
      | some k => bump st.languageCounts k
      | none => st.languageCounts,
    framework :=
      match fileFrameworkMatch fileName with
      | some fw => jsCapitalize fw
      | none => st.framework,
    hasTests := st.hasTests || jsIncludes fileName "test" || jsIncludes fileName "spec",
    hasDocs := st.hasDocs || jsIncludes fileName "readme" || jsIncludes fileName "docs" ||
      jsIncludes fileName "documentation",
    hasDocker := st.hasDocker || jsIncludes fileName "dockerfile" ||
      jsIncludes fileName "docker-compose",
    hasCI := st.hasCI || jsIncludes fileName ".github/workflows" ||
      jsIncludes fileName ".gitlab-ci" || jsIncludes fileName "travis" }

/-- The initial `analysis`/`languageCounts` state. -/
def initialAnalyzeState : AnalyzeState :=
  { fileTypes := [], languageCounts := [], framework := "Unknown",
    hasTests := false, hasDocs := false, hasDocker := false, hasCI := false }

/-- The entry kept by
`Object.entries(languageCounts).sort(([,a],[,b]) => b - a)[0]`: JS sort is
stable, so the head of the descending stable sort is the first entry (in
insertion order) carrying the maximal count, which this fold computes. -/
def firstMaxEntry (e : String × Nat) (es : List (String × Nat)) : String × Nat :=
  es.foldl (fun best x => if x.2 > best.2 then x else best) e

/-- The analysis record returned by `analyzeRepository`. -/
structure Analysis where
  language : String
  framework : String
  fileCount : Nat
  totalLines : Nat
  fileTypes : List (String × Nat)
  hasTests : Bool
  hasDocs : Bool
  hasDocker : Bool
  hasCI : Bool
deriving DecidableEq, Repr

/-- `analyzeRepository` (githubService.js line 146).  The `owner`/`repo`
arguments of the source are unused by its body and therefore omitted. -/
def analyzeRepository (files : List RepoFile) : Analysis :=
  let st := files.foldl analyzeFileStep initialAnalyzeState
  { language :=
      match st.languageCounts with
      | [] => "Unknown"
      | e :: es => (firstMaxEntry e es).1,
    framework := st.framework,
    fileCount := files.length,
    totalLines := 0,
    fileTypes := st.fileTypes,
    hasTests := st.hasTests,
    hasDocs := st.hasDocs,
    hasDocker := st.hasDocker,
    hasCI := st.hasCI }

/-- The `metadata` object assembled by `getRepositoryData`: the analysis
spread plus repository identity fields. -/
structure RepoMetadata where
  language : String
  framework : String
  fileCount : Nat
  totalLines : Nat
  fileTypes : List (String × Nat)
  hasTests : Bool
  hasDocs : Bool
  hasDocker : Bool
  hasCI : Bool
  repoName : String
  repoOwner : String
  branch : String
  url : String
deriving DecidableEq, Repr

/-- The result bundle of `getRepositoryData`. -/
structure RepoData where
  metadata : RepoMetadata
  files : List RepoFile
  readme : Option String
  packageJson : Option String
  repoInfo : RepoInfo
deriving DecidableEq, Repr

/-- The `{...metadata, repoName, repoOwner, branch, url}` spread. -/
def buildMetadata (a : Analysis) (repo owner branch url : String) : RepoMetadata :=
  { language := a.language, framework := a.framework, fileCount := a.fileCount,
    totalLines := a.totalLines, fileTypes := a.fileTypes, hasTests := a.hasTests,
    hasDocs := a.hasDocs, hasDocker := a.hasDocker, hasCI := a.hasCI,
    repoName := repo, repoOwner := owner, branch := branch, url := url }

/-- `getRepositoryData` (githubService.js line 16), with the upstream
responses passed explicitly: URL parsing, repository info fetch (fatal on
failure), file tree fetch (non-fatal), README and package.json fetches
(already collapsed to `Option` by their own catch-alls), analysis, and
assembly.  Every thrown error is wrapped by the outer catch into
`Failed to fetch repository data: ...`. -/
def getRepositoryData (repoUrl : String) (infoResp : Except Nat RepoInfo)
    (filesResp : Except Nat (Option (List TreeItem)))
    (readme : Option String) (packageJson : Option String) :
    Except String RepoData :=
  match parseGitHubUrl repoUrl with
  | .error e => .error ("Failed to fetch repository data: " ++ e)
  | .ok parsed =>
    match getRepoInfo infoResp with
    | .error e => .error ("Failed to fetch repository data: " ++ e)
    | .ok repoInfo =>
      let files := getRepoFiles filesResp
      let analysis := analyzeRepository files
      .ok { metadata := buildMetadata analysis parsed.repo parsed.owner parsed.branch repoUrl,
            files := files, readme := readme, packageJson := packageJson,
            repoInfo := repoInfo }

/-! ### Language derivation (claim C2) -/

/-- The language a file's extension counts towards, if any. -/
def fileLanguage (f : RepoFile) : Option String :=
  languageOfExt (jsToLowerCase (extname f.name))

/-- The `languageCounts` update performed for one file. -/
def langStep (m : List (String × Nat)) (f : RepoFile) : List (String × Nat) :=
  match fileLanguage f with
  | some k => bump m k
  | none => m

/-- The `languageCounts` object at the end of the file loop. -/
def languageCountsOf (files : List RepoFile) : List (String × Nat) :=
  files.foldl langStep []

/-- Count associated to a key in the insertion-ordered association list. -/
def countInAssoc : List (String × Nat) → String → Nat
  | [], _ => 0
  | (k0, n) :: rest, k => if k0 = k then n else countInAssoc rest k

/-- The key list grown in first-encounter order during the counting pass. -/
def keyStep (ks : List String) (f : RepoFile) : List String :=
  match fileLanguage f with
  | some k => if k ∈ ks then ks else ks ++ [k]
  | none => ks

/-- Keys in order of first encounter over the file list. -/
def firstEncounterKeys (files : List RepoFile) : List String :=
  files.foldl keyStep []

theorem foldl_analyzeFileStep_languageCounts (files : List RepoFile) :
    ∀ st : AnalyzeState,
      (files.foldl analyzeFileStep st).languageCounts =
        files.foldl langStep st.languageCounts := by
  induction files with
  | nil => intro st; rfl
  | cons f fs ih =>
    intro st
    rw [List.foldl_cons, List.foldl_cons, ih]
    rfl

theorem countInAssoc_bump_self (m : List (String × Nat)) (k : String) :
    countInAssoc (bump m k) k = countInAssoc m k + 1 := by
  induction m with
  | nil => simp [bump, countInAssoc]
  | cons e rest ih =>
    rcases e with ⟨k0, n⟩
    by_cases h : k0 = k
    · simp [bump, countInAssoc, h]
    · simp [bump, countInAssoc, h, ih]

theorem countInAssoc_bump_ne (m : List (String × Nat)) (k k2 : String) (h : k ≠ k2) :
    countInAssoc (bump m k) k2 = countInAssoc m k2 := by
  induction m with
  | nil => simp [bump, countInAssoc, h]
  | cons e rest ih =>
    rcases e with ⟨k0, n⟩
    by_cases h0 : k0 = k
    · simp [bump, countInAssoc, h0, h]
    · simp [bump, countInAssoc, h0, ih]

theorem countInAssoc_foldl_langStep (files : List RepoFile) (k : String) :
    ∀ m : List (String × Nat),
      countInAssoc (files.foldl langStep m) k =
        countInAssoc m k + files.countP (fun f => decide (fileLanguage f = some k)) := by
  induction files with
  | nil => intro m; simp
  | cons f fs ih =>
    intro m
    rw [List.foldl_cons, ih, List.countP_cons]
    cases hm : fileLanguage f with
    | none =>
      have : langStep m f = m := by simp [langStep, hm]
      simp [this, hm]
    | some k2 =>
      by_cases hk : k2 = k
      · subst hk
        have : langStep m f = bump m k2 := by simp [langStep, hm]
        rw [this, countInAssoc_bump_self]
        simp [hm]
        omega
      · have : langStep m f = bump m k2 := by simp [langStep, hm]
        rw [this, countInAssoc_bump_ne m k2 k hk]
        simp [hm, hk]

theorem bump_keys (m : List (String × Nat)) (k : String) :
    (bump m k).map Prod.fst =
      if k ∈ m.map Prod.fst then m.map Prod.fst else m.map Prod.fst ++ [k] := by
  induction m with
  | nil => simp [bump]
  | cons e rest ih =>
    rcases e with ⟨k0, n⟩
    by_cases h : k0 = k
    · simp [bump, h]
    · have hne : ¬k = k0 := fun hc => h hc.symm
      by_cases hmem : k ∈ rest.map Prod.fst
      · simp [bump, h, ih, hmem, hne]
      · simp [bump, h, ih, hmem, hne]

theorem foldl_langStep_keys (files : List RepoFile) :
    ∀ m : List (String × Nat),
      (files.foldl langStep m).map Prod.fst = files.foldl keyStep (m.map Prod.fst) := by
  induction files with
  | nil => intro m; rfl
  | cons f fs ih =>
    intro m
    rw [List.foldl_cons, ih, List.foldl_cons]
    congr 1
    cases hm : fileLanguage f with
    | none => simp [langStep, keyStep, hm]
    | some k => simp [langStep, keyStep, hm, bump_keys]

theorem firstMaxEntry_spec (es : List (String × Nat)) :
    ∀ e : String × Nat,
      ∃ pre post, e :: es = pre ++ firstMaxEntry e es :: post ∧
        (∀ x ∈ pre, x.2 < (firstMaxEntry e es).2) ∧
        (∀ x ∈ e :: es, x.2 ≤ (firstMaxEntry e es).2) := by
  induction es with
  | nil =>
    intro e
    exact ⟨[], [], rfl, by simp, by simp [firstMaxEntry]⟩
  | cons a es ih =>
    intro e
    have hstep : firstMaxEntry e (a :: es) =
        firstMaxEntry (if a.2 > e.2 then a else e) es := rfl
    obtain ⟨pre, post, hdec, hpre, hall⟩ := ih (if a.2 > e.2 then a else e)
    by_cases hgt : a.2 > e.2
    · rw [if_pos hgt] at hdec hpre hall
      refine ⟨e :: pre, post, ?_, ?_, ?_⟩
      · rw [hstep, if_pos hgt]
        simpa using congrArg (List.cons e) hdec
      · intro x hx
        rw [hstep, if_pos hgt]
        rcases List.mem_cons.mp hx with hx | hx
        · subst hx
          exact lt_of_lt_of_le hgt (hall a (by simp))
        · exact hpre x hx
      · intro x hx
        rw [hstep, if_pos hgt]
        rcases List.mem_cons.mp hx with hx | hx
        · subst hx
          exact le_of_lt (lt_of_lt_of_le hgt (hall a (by simp)))
        · exact hall x hx
    · rw [if_neg hgt] at hdec hpre hall
      have hle : a.2 ≤ e.2 := Nat.le_of_not_lt hgt
      cases pre with
      | nil =>
        simp only [List.nil_append] at hdec
        have he : firstMaxEntry e es = e := (List.cons.inj hdec).1.symm
        have hpost : es = post := (List.cons.inj hdec).2
        refine ⟨[], a :: es, ?_, by simp, ?_⟩
        · rw [hstep, if_neg hgt, he]
          rfl
        · intro x hx
          rw [hstep, if_neg hgt, he]
          rcases List.mem_cons.mp hx with hx | hx
          · subst hx; exact le_rfl
          · rcases List.mem_cons.mp hx with hx | hx
            · subst hx; exact hle
            · have := hall x (by simp [hx])
              rw [he] at this
              exact this
      | cons p0 pre2 =>
        have h1 : e = p0 := (List.cons.inj (by simpa using hdec)).1
        have h2 : es = pre2 ++ firstMaxEntry e es :: post :=
          (List.cons.inj (by simpa using hdec)).2
        have hp0 : p0.2 < (firstMaxEntry e es).2 := hpre p0 (by simp)
        have hlt : e.2 < (firstMaxEntry e es).2 := by
          rw [← h1] at hp0
          exact hp0
        refine ⟨e :: a :: pre2, post, ?_, ?_, ?_⟩
        · rw [hstep, if_neg hgt]
          simp only [List.cons_append]
          rw [← h2]
        · intro x hx
          rw [hstep, if_neg hgt]
          rcases List.mem_cons.mp hx with hx | hx
          · subst hx; exact hlt
          · rcases List.mem_cons.mp hx with hx | hx
            · subst hx; exact lt_of_le_of_lt hle hlt
            · exact hpre x (by simp [hx])
        · intro x hx
          rw [hstep, if_neg hgt]
          rcases List.mem_cons.mp hx with hx | hx
          · subst hx; exact le_of_lt hlt
          · rcases List.mem_cons.mp hx with hx | hx
            · subst hx; exact le_trans hle (le_of_lt hlt)
            · exact hall x (by simp [hx])

theorem analyzeRepository_language_eq (files : List RepoFile) :
    (analyzeRepository files).language =
      match languageCountsOf files with
      | [] => "Unknown"
      | e :: es => (firstMaxEntry e es).1 := by
  have h := foldl_analyzeFileStep_languageCounts files initialAnalyzeState
  show (match (files.foldl analyzeFileStep initialAnalyzeState).languageCounts with
    | [] => "Unknown"
    | e :: es => (firstMaxEntry e es).1) = _
  rw [h]
  rfl

/-- C2 amended: the declared primary language is never consulted.  The
derived `metadata.language` (i) does not depend on the fetched repository
info, (ii) counts exactly the files whose extension maps to each language,
(iii) keeps the counted languages in first-encounter order, and (iv) when
any language was counted, equals an entry of maximal count preceded only by
entries of strictly smaller count (the first-encountered maximum); with no
counted language it is "Unknown". -/
theorem analyzeRepository_language_from_extensions :
    (∀ (url : String) (i1 i2 : RepoInfo) (filesResp : Except Nat (Option (List TreeItem)))
        (readme packageJson : Option String),
      (getRepositoryData url (.ok i1) filesResp readme packageJson).map
          (fun d => d.metadata.language) =
        (getRepositoryData url (.ok i2) filesResp readme packageJson).map
          (fun d => d.metadata.language)) ∧
    (∀ (files : List RepoFile) (k : String),
      countInAssoc (languageCountsOf files) k =
        files.countP (fun f => decide (fileLanguage f = some k))) ∧
    (∀ files : List RepoFile,
      (languageCountsOf files).map Prod.fst = firstEncounterKeys files) ∧
    (∀ files : List RepoFile,
      (languageCountsOf files = [] ∧ (analyzeRepository files).language = "Unknown") ∨
      (∃ pre c post, languageCountsOf files =
          pre ++ ((analyzeRepository files).language, c) :: post ∧
        (∀ x ∈ pre, x.2 < c) ∧ (∀ x ∈ languageCountsOf files, x.2 ≤ c))) := by
  refine ⟨?_, ?_, ?_, ?_⟩
  · intro url i1 i2 filesResp readme packageJson
    cases hp : parseGitHubUrl url with
    | error e => simp [getRepositoryData, hp]
    | ok p => simp [getRepositoryData, getRepoInfo, hp, Except.map]
  · intro files k
    simpa [countInAssoc] using countInAssoc_foldl_langStep files k []
  · intro files
    simpa using foldl_langStep_keys files []
  · intro files
    cases hm : languageCountsOf files with
    | nil =>
      left
      refine ⟨rfl, ?_⟩
      rw [analyzeRepository_language_eq files, hm]
    | cons e es =>
      right
      obtain ⟨pre, post, hdec, hpre, hall⟩ := firstMaxEntry_spec es e
      refine ⟨pre, (firstMaxEntry e es).2, post, ?_, ?_, ?_⟩
      · rw [analyzeRepository_language_eq files, hm]
        simpa using hdec
      · exact hpre
      · intro x hx
        exact hall x hx

theorem analyzeRepository_language_from_extensions_witness :
    (GitHubService.getRepositoryData "https://github.com/o/r"
        (.ok ⟨"r", none, some "Python", 0, 0, 0, "main", [], none, none⟩)
        (.ok (some [⟨"a.js", "blob", none, "", ""⟩])) none none).map
      (fun d => d.metadata.language) =
    (GitHubService.getRepositoryData "https://github.com/o/r"
        (.ok ⟨"r", none, some "Go", 9, 9, 9, "dev", [], none, none⟩)
        (.ok (some [⟨"a.js", "blob", none, "", ""⟩])) none none).map
      (fun d => d.metadata.language) :=
  analyzeRepository_language_from_extensions.1 "https://github.com/o/r"
    ⟨"r", none, some "Python", 0, 0, 0, "main", [], none, none⟩
    ⟨"r", none, some "Go", 9, 9, 9, "dev", [], none, none⟩
    (.ok (some [⟨"a.js", "blob", none, "", ""⟩])) none none

/-- C2 counterexample: a repository whose metadata declares the primary
language "Python" but whose only file is `a.js` gets the derived
`metadata.language` "JavaScript": the declared value is returned untouched
in `repoInfo` and never copied into the derived field. -/
theorem getRepositoryData_ignores_declared_language :
    (GitHubService.getRepositoryData "https://github.com/o/r"
        (.ok ⟨"r", none, some "Python", 0, 0, 0, "main", [], none, none⟩)
        (.ok (some [⟨"a.js", "blob", none, "", ""⟩])) none none).map
      (fun d => (d.metadata.language, d.repoInfo.language)) =
      .ok ("JavaScript", some "Python") ∧
    ("JavaScript" : String) ≠ "Python" := by
  constructor
  · decide
  · decide

/-! ### Framework derivation (claim C3) -/

/-- The `framework` update performed for one file: the file's first
indicator-table match (if any) overwrites the current value. -/
def fwStep (fw : String) (f : RepoFile) : String :=
  match fileFrameworkMatch (jsToLowerCase f.name) with
  | some x => jsCapitalize x
  | none => fw

theorem foldl_analyzeFileStep_framework (files : List RepoFile) :
    ∀ st : AnalyzeState,
      (files.foldl analyzeFileStep st).framework = files.foldl fwStep st.framework := by
  induction files with
  | nil => intro st; rfl
  | cons f fs ih =>
    intro st
    rw [List.foldl_cons, List.foldl_cons, ih]
    rfl

theorem foldl_fwStep_last (files : List RepoFile) :
    ∀ fw0 : String,
      files.foldl fwStep fw0 =
        match files.reverse.findSome? (fun f => fileFrameworkMatch (jsToLowerCase f.name)) with
        | some x => jsCapitalize x
        | none => fw0 := by
  induction files using List.reverseRecOn with
  | nil => intro fw0; rfl
  | append_singleton l f ih =>
    intro fw0
    rw [List.foldl_append, List.reverse_append]
    cases hm : fileFrameworkMatch (jsToLowerCase f.name) with
    | some x => simp [List.findSome?_cons, hm, fwStep]
    | none => simp [List.findSome?_cons, hm, fwStep, ih fw0]

/-- C3 amended: within one file the first indicator-table entry (in table
order) with a matching substring decides that file's framework, but each
matching file overwrites the previous value, so the analyzer's final
framework is that of the LAST matching file (the first match over the
reversed file list), or "Unknown" when no file matches. -/
theorem analyzeRepository_framework_last_match (files : List RepoFile) :
    (analyzeRepository files).framework =
      match files.reverse.findSome? (fun f => fileFrameworkMatch (jsToLowerCase f.name)) with
      | some fw => jsCapitalize fw
      | none => "Unknown" := by
  have h := foldl_analyzeFileStep_framework files initialAnalyzeState
  show (files.foldl analyzeFileStep initialAnalyzeState).framework = _
  rw [h]
  exact foldl_fwStep_last files "Unknown"

theorem analyzeRepository_framework_last_match_witness :
    (GitHubService.analyzeRepository
        [⟨"vue.config.js", none, "", "", ""⟩, ⟨"angular.json", none, "", "", ""⟩]).framework =
      match ([⟨"vue.config.js", none, "", "", ""⟩,
          (⟨"angular.json", none, "", "", ""⟩ : GitHubService.RepoFile)]).reverse.findSome?
          (fun f => GitHubService.fileFrameworkMatch (jsToLowerCase f.name)) with
      | some fw => jsCapitalize fw
      | none => "Unknown" :=
  analyzeRepository_framework_last_match
    [⟨"vue.config.js", none, "", "", ""⟩, ⟨"angular.json", none, "", "", ""⟩]

/-- C3 counterexample: `vue.config.js` matches the indicator table (giving
"Vue"), yet adding the later file `angular.json` changes the result to
"Angular" — the first match does not win across files. -/
theorem analyzeRepository_framework_overwritten :
    (GitHubService.analyzeRepository [⟨"vue.config.js", none, "", "", ""⟩]).framework = "Vue" ∧
    (GitHubService.analyzeRepository
        [⟨"vue.config.js", none, "", "", ""⟩, ⟨"angular.json", none, "", "", ""⟩]).framework =
      "Angular" ∧
    ("Angular" : String) ≠ "Vue" := by
  refine ⟨?_, ?_, ?_⟩
  · decide
  · decide
  · decide

/-! ### Upstream failure handling (claim C5) -/

/-- C5 amended: repository-info failures are all mapped to one generic
message with no status distinction, the wrapper turns any such failure into
an error result (never a silent empty success), and file-tree failures are
swallowed into an empty file list. -/
theorem repo_failures_generic_and_silent (s1 s2 : Nat) :
    getRepoInfo (.error s1) = .error "Failed to fetch repository information" ∧
    getRepoInfo (.error s1) = getRepoInfo (.error s2) ∧
    getRepoFiles (.error s1) = ([] : List RepoFile) ∧
    (∀ (url : String) (filesResp : Except Nat (Option (List TreeItem)))
        (readme pkg : Option String),
      ∃ m, getRepositoryData url (.error s1) filesResp readme pkg = .error m) := by
  refine ⟨rfl, rfl, rfl, ?_⟩
  intro url filesResp readme pkg
  cases hp : parseGitHubUrl url with
  | error e =>
    exact ⟨"Failed to fetch repository data: " ++ e, by simp [getRepositoryData, hp]⟩
  | ok p =>
    exact ⟨"Failed to fetch repository data: Failed to fetch repository information",
      by simp [getRepositoryData, getRepoInfo, hp]⟩

theorem repo_failures_generic_and_silent_witness :
    GitHubService.getRepoInfo (.error 404) =
      .error "Failed to fetch repository information" ∧
    GitHubService.getRepoInfo (.error 404) = GitHubService.getRepoInfo (.error 500) ∧
    GitHubService.getRepoFiles (.error 404) = ([] : List GitHubService.RepoFile) ∧
    (∀ (url : String) (filesResp : Except Nat (Option (List GitHubService.TreeItem)))
        (readme pkg : Option String),
      ∃ m, GitHubService.getRepositoryData url (.error 404) filesResp readme pkg = .error m) :=
  repo_failures_generic_and_silent 404 500

/-- C5 counterexample: 404, 403 and 401 all produce the very same message
(no NotFound / RateLimited / AuthFailed distinction exists), and a failing
file-tree fetch yields a silent empty file list. -/
theorem repo_failure_messages_not_distinct :
    GitHubService.getRepoInfo (.error 404) =
      .error "Failed to fetch repository information" ∧
    GitHubService.getRepoInfo (.error 403) =
      .error "Failed to fetch repository information" ∧
    GitHubService.getRepoInfo (.error 401) =
      .error "Failed to fetch repository information" ∧
    GitHubService.getRepoFiles (.error 500) = ([] : List GitHubService.RepoFile) := by
  refine ⟨?_, ?_, ?_, ?_⟩
  · decide
  · decide
  · decide
  · decide

end GitHubService

namespace GitHubService

/-! ### URL parsing against the spec pattern (claim C6) -/

/-- The spec's "expected owner/repo pattern" on the raw characters:
somewhere in the input, the literal `github.com/` followed by a nonempty run
of non-slash characters (the owner), a slash, and at least one further
non-slash character (the start of the repo name). -/
def urlPatternChars (cs : List Char) : Prop :=
  ∃ pre owner : List Char, ∃ c : Char, ∃ rest : List Char,
    cs = pre ++ ("github.com/".data ++ (owner ++ '/' :: c :: rest)) ∧
    owner ≠ [] ∧ (∀ ch ∈ owner, ch ≠ '/') ∧ c ≠ '/'

/-- The spec pattern on a string input. -/
def urlPattern (s : String) : Prop := urlPatternChars s.data

theorem nonSlash_eq_true {c : Char} : nonSlash c = true ↔ c ≠ '/' := by
  simp [nonSlash]

theorem nonSlash_slash : nonSlash '/' = false := by decide

theorem takeWhile_all_append {α : Type} (p : α → Bool) (xs ys : List α)
    (h : ∀ x ∈ xs, p x = true) :
    (xs ++ ys).takeWhile p = xs ++ ys.takeWhile p := by
  induction xs with
  | nil => simp
  | cons a as ih =>
    have ha : p a = true := h a (by simp)
    have hrest : ∀ x ∈ as, p x = true := fun x hx => h x (by simp [hx])
    simp [List.takeWhile_cons, ha, ih hrest]

theorem dropWhile_all_append {α : Type} (p : α → Bool) (xs ys : List α)
    (h : ∀ x ∈ xs, p x = true) :
    (xs ++ ys).dropWhile p = ys.dropWhile p := by
  induction xs with
  | nil => simp
  | cons a as ih =>
    have ha : p a = true := h a (by simp)
    have hrest : ∀ x ∈ as, p x = true := fun x hx => h x (by simp [hx])
    simp [List.dropWhile_cons, ha, ih hrest]

theorem takeWhile_all {α : Type} (p : α → Bool) (l : List α)
    (h : ∀ x ∈ l, p x = true) : l.takeWhile p = l := by
  induction l with
  | nil => simp
  | cons a as ih =>
    have ha : p a = true := h a (by simp)
    have hrest : ∀ x ∈ as, p x = true := fun x hx => h x (by simp [hx])
    simp [List.takeWhile_cons, ha, ih hrest]

theorem dropWhile_all {α : Type} (p : α → Bool) (l : List α)
    (h : ∀ x ∈ l, p x = true) : l.dropWhile p = [] := by
  induction l with
  | nil => simp
  | cons a as ih =>
    have ha : p a = true := h a (by simp)
    have hrest : ∀ x ∈ as, p x = true := fun x hx => h x (by simp [hx])
    simp [List.dropWhile_cons, ha, ih hrest]

theorem eq_append_drop_of_isPrefixOf {α : Type} [DecidableEq α] :
    ∀ (l cs : List α), List.isPrefixOf l cs = true → cs = l ++ cs.drop l.length
  | [], cs, _ => by simp
  | a :: as, [], h => by simp [List.isPrefixOf] at h
  | a :: as, b :: cs, h => by
    simp only [List.isPrefixOf, Bool.and_eq_true, beq_iff_eq] at h
    obtain ⟨hab, hrest⟩ := h
    have htail := eq_append_drop_of_isPrefixOf as cs hrest
    subst hab
    simp only [List.length_cons, List.drop_succ_cons, List.cons_append]
    exact congrArg (List.cons a) htail

theorem tryMatchAt_cons_ne_g (c : Char) (cs : List Char) (h : c ≠ 'g') :
    tryMatchAt (c :: cs) = none := by
  have hne : ('g' == c) = false := beq_eq_false_iff_ne.mpr (fun hh => h hh.symm)
  have hg : List.isPrefixOf "github.com/".data (c :: cs) = false := by
    rw [show "github.com/".data = 'g' :: "ithub.com/".data from rfl]
    simp [List.isPrefixOf, hne]
  simp [tryMatchAt, hg]

theorem findUrlMatch_cons_none (c : Char) (cs : List Char)
    (h : tryMatchAt (c :: cs) = none) :
    findUrlMatch (c :: cs) = findUrlMatch cs := by
  simp [findUrlMatch, h]

theorem findUrlMatch_isSome_cons (c : Char) (cs : List Char) :
    (findUrlMatch (c :: cs)).isSome =
      ((tryMatchAt (c :: cs)).isSome || (findUrlMatch cs).isSome) := by
  cases h : tryMatchAt (c :: cs) <;> simp [findUrlMatch, h]

/-- One unfolding step of the left-to-right scan. -/
theorem findUrlMatch_cons_eq (c : Char) (cs : List Char) :
    findUrlMatch (c :: cs) =
      match tryMatchAt (c :: cs) with
      | some r => some r
      | none => findUrlMatch cs := rfl

/-- The optional `/tree/branch` group as computed from the remainder after
the repo run. -/
def branchOf (rest2 : List Char) : Option (List Char) :=
  if List.isPrefixOf "/tree/".data (rest2.dropWhile nonSlash) then
    if ((rest2.dropWhile nonSlash).drop ("/tree/".data.length)).takeWhile nonSlash = [] then
      none
    else some (((rest2.dropWhile nonSlash).drop ("/tree/".data.length)).takeWhile nonSlash)
  else none

/-- One regex attempt right after the literal `github.com/` has matched,
with the position arithmetic eliminated. -/
theorem tryMatchAt_append_eq (rest : List Char) :
    tryMatchAt ("github.com/".data ++ rest) =
      if rest.takeWhile nonSlash = [] then none
      else
        match rest.dropWhile nonSlash with
        | d :: rest2 =>
          if d = '/' then
            if rest2.takeWhile nonSlash = [] then none
            else some (rest.takeWhile nonSlash, rest2.takeWhile nonSlash, branchOf rest2)
          else none
        | [] => none := by
  simp only [tryMatchAt, branchOf, isPrefixOf_self_append, List.drop_left,
    eq_self_iff_true, if_true]

theorem tryMatchAt_append_nilDrop (rest : List Char)
    (hdw : rest.dropWhile nonSlash = []) :
    tryMatchAt ("github.com/".data ++ rest) = none := by
  rw [tryMatchAt_append_eq, hdw]
  by_cases ho : rest.takeWhile nonSlash = [] <;> simp [ho]

theorem tryMatchAt_append_consDrop (rest : List Char) (d : Char) (rest2 : List Char)
    (hdw : rest.dropWhile nonSlash = d :: rest2) :
    tryMatchAt ("github.com/".data ++ rest) =
      if rest.takeWhile nonSlash = [] then none
      else
        if d = '/' then
          if rest2.takeWhile nonSlash = [] then none
          else some (rest.takeWhile nonSlash, rest2.takeWhile nonSlash, branchOf rest2)
        else none := by
  rw [tryMatchAt_append_eq, hdw]

theorem branchOf_of_dropWhile_tree (rest2 branch : List Char)
    (hdd : rest2.dropWhile nonSlash = '/' :: 't' :: 'r' :: 'e' :: 'e' :: '/' :: branch)
    (hbr : branch ≠ []) (hallb : ∀ ch ∈ branch, ch ≠ '/') :
    branchOf rest2 = some branch := by
  have hallb2 : ∀ ch ∈ branch, nonSlash ch = true :=
    fun ch hch => nonSlash_eq_true.mpr (hallb ch hch)
  simp only [branchOf, hdd]
  rw [show ('/' :: 't' :: 'r' :: 'e' :: 'e' :: '/' :: branch : List Char) =
      (['/', 't', 'r', 'e', 'e', '/'] : List Char) ++ branch from rfl,
    isPrefixOf_self_append, List.drop_left, takeWhile_all nonSlash branch hallb2,
    if_pos rfl, if_neg hbr]

theorem branchOf_of_dropWhile_nil (rest2 : List Char)
    (hdd : rest2.dropWhile nonSlash = []) :
    branchOf rest2 = none := by
  have hfalse : List.isPrefixOf "/tree/".data ([] : List Char) = false := by decide
  simp only [branchOf, hdd, hfalse]
  simp

/-- Full computation of one regex attempt on a shaped input carrying a
`/tree/branch` segment. -/
theorem tryMatchAt_canonical_tree (owner repo branch : List Char)
    (how : owner ≠ []) (hallo : ∀ ch ∈ owner, ch ≠ '/')
    (hrep : repo ≠ []) (hallr : ∀ ch ∈ repo, ch ≠ '/')
    (hbr : branch ≠ []) (hallb : ∀ ch ∈ branch, ch ≠ '/') :
    tryMatchAt ("github.com/".data ++
        (owner ++ '/' :: (repo ++ ('/' :: 't' :: 'r' :: 'e' :: 'e' :: '/' :: branch)))) =
      some (owner, repo, some branch) := by
  have hallo2 : ∀ ch ∈ owner, nonSlash ch = true :=
    fun ch hch => nonSlash_eq_true.mpr (hallo ch hch)
  have hallr2 : ∀ ch ∈ repo, nonSlash ch = true :=
    fun ch hch => nonSlash_eq_true.mpr (hallr ch hch)
  have ht1 : (owner ++ '/' ::
      (repo ++ ('/' :: 't' :: 'r' :: 'e' :: 'e' :: '/' :: branch))).takeWhile nonSlash =
      owner := by
    rw [takeWhile_all_append nonSlash owner _ hallo2, List.takeWhile_cons]
    simp [nonSlash_slash]
  have hd1 : (owner ++ '/' ::
      (repo ++ ('/' :: 't' :: 'r' :: 'e' :: 'e' :: '/' :: branch))).dropWhile nonSlash =
      '/' :: (repo ++ ('/' :: 't' :: 'r' :: 'e' :: 'e' :: '/' :: branch)) := by
    rw [dropWhile_all_append nonSlash owner _ hallo2, List.dropWhile_cons]
    simp [nonSlash_slash]
  have ht2 : (repo ++ ('/' :: 't' :: 'r' :: 'e' :: 'e' :: '/' :: branch)).takeWhile nonSlash =
      repo := by
    rw [takeWhile_all_append nonSlash repo _ hallr2, List.takeWhile_cons]
    simp [nonSlash_slash]
  have hd2 : (repo ++ ('/' :: 't' :: 'r' :: 'e' :: 'e' :: '/' :: branch)).dropWhile nonSlash =
      '/' :: 't' :: 'r' :: 'e' :: 'e' :: '/' :: branch := by
    rw [dropWhile_all_append nonSlash repo _ hallr2, List.dropWhile_cons]
    simp [nonSlash_slash]
  rw [tryMatchAt_append_consDrop _ _ _ hd1, ht1, if_neg how, if_pos rfl, ht2, if_neg hrep,
    branchOf_of_dropWhile_tree _ branch hd2 hbr hallb]

/-- Full computation of one regex attempt on a shaped input with no
`/tree/` segment. -/
theorem tryMatchAt_canonical_plain (owner repo : List Char)
    (how : owner ≠ []) (hallo : ∀ ch ∈ owner, ch ≠ '/')
    (hrep : repo ≠ []) (hallr : ∀ ch ∈ repo, ch ≠ '/') :
    tryMatchAt ("github.com/".data ++ (owner ++ '/' :: repo)) =
      some (owner, repo, none) := by
  have hallo2 : ∀ ch ∈ owner, nonSlash ch = true :=
    fun ch hch => nonSlash_eq_true.mpr (hallo ch hch)
  have hallr2 : ∀ ch ∈ repo, nonSlash ch = true :=
    fun ch hch => nonSlash_eq_true.mpr (hallr ch hch)
  have ht1 : (owner ++ '/' :: repo).takeWhile nonSlash = owner := by
    rw [takeWhile_all_append nonSlash owner _ hallo2, List.takeWhile_cons]
    simp [nonSlash_slash]
  have hd1 : (owner ++ '/' :: repo).dropWhile nonSlash = '/' :: repo := by
    rw [dropWhile_all_append nonSlash owner _ hallo2, List.dropWhile_cons]
    simp [nonSlash_slash]
  have ht2 : repo.takeWhile nonSlash = repo := takeWhile_all nonSlash repo hallr2
  have hd2 : repo.dropWhile nonSlash = [] := dropWhile_all nonSlash repo hallr2
  rw [tryMatchAt_append_consDrop _ _ _ hd1, ht1, if_neg how, if_pos rfl, ht2, if_neg hrep,
    branchOf_of_dropWhile_nil repo hd2]

/-- A successful regex attempt at the current position exhibits the spec
pattern (with an empty scan prefix). -/
theorem urlPatternChars_of_tryMatchAt_some {cs : List Char}
    {res : List Char × List Char × Option (List Char)}
    (h : tryMatchAt cs = some res) : urlPatternChars cs := by
  by_cases hp : List.isPrefixOf "github.com/".data cs = true
  case neg =>
    exfalso
    have hfalse : List.isPrefixOf "github.com/".data cs = false := by
      rw [← Bool.not_eq_true]
      exact hp
    have hnone : tryMatchAt cs = none := by
      simp only [tryMatchAt]
      rw [show (['g', 'i', 't', 'h', 'u', 'b', '.', 'c', 'o', 'm', '/'] : List Char) =
        "github.com/".data from rfl, hfalse]
      simp
    rw [hnone] at h
    exact Option.noConfusion h
  case pos =>
    have hcs := eq_append_drop_of_isPrefixOf _ _ hp
    rw [hcs] at h
    set rest := cs.drop ("github.com/".data.length) with hr
    cases hdw : rest.dropWhile nonSlash with
    | nil =>
      rw [tryMatchAt_append_nilDrop rest hdw] at h
      exact Option.noConfusion h
    | cons d rest2 =>
      rw [tryMatchAt_append_consDrop rest d rest2 hdw] at h
      by_cases ho : rest.takeWhile nonSlash = []
      · rw [if_pos ho] at h; exact Option.noConfusion h
      · rw [if_neg ho] at h
        by_cases hd : d = '/'
        case neg => rw [if_neg hd] at h; exact Option.noConfusion h
        case pos =>
          subst hd
          rw [if_pos rfl] at h
          by_cases hr2 : rest2.takeWhile nonSlash = []
          · rw [if_pos hr2] at h; exact Option.noConfusion h
          · have hsplit : rest = rest.takeWhile nonSlash ++ ('/' :: rest2) := by
              have hx := List.takeWhile_append_dropWhile nonSlash rest
              rw [hdw] at hx
              exact hx.symm
            rcases rest2 with _ | ⟨c2, r2⟩
            · exact absurd rfl hr2
            · have hc2 : nonSlash c2 = true := by
                by_contra hcc
                have hc3 : nonSlash c2 = false := by simpa using hcc
                exact hr2 (by simp [List.takeWhile_cons, hc3])
              refine ⟨[], rest.takeWhile nonSlash, c2, r2, ?_, ho, ?_, ?_⟩
              · rw [List.nil_append]
                exact hcs.trans (congrArg (fun t => "github.com/".data ++ t) hsplit)
              · intro ch hch
                exact nonSlash_eq_true.mp (List.mem_takeWhile_imp hch)
              · exact nonSlash_eq_true.mp hc2

/-- A shaped suffix makes the regex attempt succeed. -/
theorem tryMatchAt_isSome_of_shape (owner : List Char) (c : Char) (rest : List Char)
    (how : owner ≠ []) (hallo : ∀ ch ∈ owner, ch ≠ '/') (hc : c ≠ '/') :
    (tryMatchAt ("github.com/".data ++ (owner ++ '/' :: c :: rest))).isSome = true := by
  have hallo2 : ∀ ch ∈ owner, nonSlash ch = true :=
    fun ch hch => nonSlash_eq_true.mpr (hallo ch hch)
  have hc2 : nonSlash c = true := nonSlash_eq_true.mpr hc
  have ht1 : (owner ++ '/' :: c :: rest).takeWhile nonSlash = owner := by
    rw [takeWhile_all_append nonSlash owner _ hallo2, List.takeWhile_cons]
    simp [nonSlash_slash]
  have hd1 : (owner ++ '/' :: c :: rest).dropWhile nonSlash = '/' :: c :: rest := by
    rw [dropWhile_all_append nonSlash owner _ hallo2, List.dropWhile_cons]
    simp [nonSlash_slash]
  have ht2 : (c :: rest).takeWhile nonSlash = c :: rest.takeWhile nonSlash := by
    rw [List.takeWhile_cons, if_pos hc2]
  rw [tryMatchAt_append_consDrop _ _ _ hd1, ht1, if_neg how, if_pos rfl, ht2,
    if_neg (by simp)]
  rfl
theorem findUrlMatch_isSome_iff (cs : List Char) :
    (findUrlMatch cs).isSome = true ↔ urlPatternChars cs := by
  induction cs with
  | nil =>
    simp only [findUrlMatch, Option.isSome_none, Bool.false_eq_true, false_iff]
    rintro ⟨pre, owner, c, rest, heq, _, _, _⟩
    have hlen := congrArg List.length heq
    simp [List.length_append] at hlen
    omega
  | cons c0 cs ih =>
    rw [findUrlMatch_isSome_cons]
    constructor
    · intro h
      rcases (Bool.or_eq_true _ _).mp h with h | h
      · cases htm : tryMatchAt (c0 :: cs) with
        | none => rw [htm] at h; simp at h
        | some res => exact urlPatternChars_of_tryMatchAt_some htm
      · obtain ⟨pre, owner, c, rest, heq, how, hall, hc⟩ := ih.mp h
        exact ⟨c0 :: pre, owner, c, rest, by rw [List.cons_append, heq], how, hall, hc⟩
    · rintro ⟨pre, owner, c, rest, heq, how, hall, hc⟩
      cases pre with
      | nil =>
        simp only [List.nil_append] at heq
        apply (Bool.or_eq_true _ _).mpr
        left
        rw [heq]
        exact tryMatchAt_isSome_of_shape owner c rest how hall hc
      | cons p0 pre2 =>
        have h2 : cs = pre2 ++ ("github.com/".data ++ (owner ++ '/' :: c :: rest)) :=
          (List.cons.inj (by simpa using heq)).2
        apply (Bool.or_eq_true _ _).mpr
        right
        exact ih.mpr ⟨pre2, owner, c, rest, h2, how, hall, hc⟩

/-- C6: `parseGitHubUrl` fails with the InvalidInput message exactly on
inputs not matching the expected owner/repo pattern; on a canonical
`owner/repo` URL it returns the owner, the repo with a first `.git`
occurrence removed, and the branch taken from the `/tree/` segment when
present or `main` otherwise. -/
theorem parseGitHubUrl_spec :
    (∀ s : String, (∃ e, parseGitHubUrl s = .error e) ↔ ¬urlPattern s) ∧
    (∀ owner repo branch : String,
      owner.data ≠ [] → (∀ c ∈ owner.data, c ≠ '/') →
      repo.data ≠ [] → (∀ c ∈ repo.data, c ≠ '/') →
      branch.data ≠ [] → (∀ c ∈ branch.data, c ≠ '/') →
      parseGitHubUrl ("https://github.com/" ++ owner ++ "/" ++ repo ++ "/tree/" ++ branch) =
        .ok ⟨owner, String.mk (replaceFirst ".git".data [] repo.data), branch⟩ ∧
      parseGitHubUrl ("https://github.com/" ++ owner ++ "/" ++ repo) =
        .ok ⟨owner, String.mk (replaceFirst ".git".data [] repo.data), "main"⟩) := by
  constructor
  · intro s
    constructor
    · rintro ⟨e, he⟩ hpat
      have hsome := (findUrlMatch_isSome_iff s.data).mpr hpat
      unfold parseGitHubUrl at he
      cases hf : findUrlMatch s.data with
      | none => rw [hf] at hsome; simp at hsome
      | some r => rw [hf] at he; rcases r with ⟨o, rp, b⟩; simp at he
    · intro hpat
      cases hf : findUrlMatch s.data with
      | none => exact ⟨"Invalid GitHub URL format", by simp [parseGitHubUrl, hf]⟩
      | some r =>
        exfalso
        apply hpat
        apply (findUrlMatch_isSome_iff s.data).mp
        rw [hf]
        rfl
  · intro owner repo branch how hallo hrep hallr hbr hallb
    constructor
    · have hdata : ("https://github.com/" ++ owner ++ "/" ++ repo ++ "/tree/" ++ branch).data =
          'h' :: 't' :: 't' :: 'p' :: 's' :: ':' :: '/' :: '/' ::
            ("github.com/".data ++ (owner.data ++ '/' ::
              (repo.data ++ ('/' :: 't' :: 'r' :: 'e' :: 'e' :: '/' :: branch.data)))) := by
        simp only [String.data_append]
        simp [List.append_assoc]
      simp only [parseGitHubUrl, hdata]
      rw [findUrlMatch_cons_none _ _ (tryMatchAt_cons_ne_g 'h' _ (by decide)),
        findUrlMatch_cons_none _ _ (tryMatchAt_cons_ne_g 't' _ (by decide)),
        findUrlMatch_cons_none _ _ (tryMatchAt_cons_ne_g 't' _ (by decide)),
        findUrlMatch_cons_none _ _ (tryMatchAt_cons_ne_g 'p' _ (by decide)),
        findUrlMatch_cons_none _ _ (tryMatchAt_cons_ne_g 's' _ (by decide)),
        findUrlMatch_cons_none _ _ (tryMatchAt_cons_ne_g ':' _ (by decide)),
        findUrlMatch_cons_none _ _ (tryMatchAt_cons_ne_g '/' _ (by decide)),
        findUrlMatch_cons_none _ _ (tryMatchAt_cons_ne_g '/' _ (by decide))]
      rw [show "github.com/".data ++ (owner.data ++ '/' ::
          (repo.data ++ ('/' :: 't' :: 'r' :: 'e' :: 'e' :: '/' :: branch.data))) =
        'g' :: ("ithub.com/".data ++ (owner.data ++ '/' ::
          (repo.data ++ ('/' :: 't' :: 'r' :: 'e' :: 'e' :: '/' :: branch.data)))) from rfl]
      rw [findUrlMatch_cons_eq]
      rw [show 'g' :: ("ithub.com/".data ++ (owner.data ++ '/' ::
          (repo.data ++ ('/' :: 't' :: 'r' :: 'e' :: 'e' :: '/' :: branch.data)))) =
        "github.com/".data ++ (owner.data ++ '/' ::
          (repo.data ++ ('/' :: 't' :: 'r' :: 'e' :: 'e' :: '/' :: branch.data))) from rfl]
      rw [tryMatchAt_canonical_tree owner.data repo.data branch.data how hallo hrep hallr hbr hallb]
    · have hdata : ("https://github.com/" ++ owner ++ "/" ++ repo).data =
          'h' :: 't' :: 't' :: 'p' :: 's' :: ':' :: '/' :: '/' ::
            ("github.com/".data ++ (owner.data ++ '/' :: repo.data)) := by
        simp only [String.data_append]
        simp [List.append_assoc]
      simp only [parseGitHubUrl, hdata]
      rw [findUrlMatch_cons_none _ _ (tryMatchAt_cons_ne_g 'h' _ (by decide)),
        findUrlMatch_cons_none _ _ (tryMatchAt_cons_ne_g 't' _ (by decide)),
        findUrlMatch_cons_none _ _ (tryMatchAt_cons_ne_g 't' _ (by decide)),
        findUrlMatch_cons_none _ _ (tryMatchAt_cons_ne_g 'p' _ (by decide)),
        findUrlMatch_cons_none _ _ (tryMatchAt_cons_ne_g 's' _ (by decide)),
        findUrlMatch_cons_none _ _ (tryMatchAt_cons_ne_g ':' _ (by decide)),
        findUrlMatch_cons_none _ _ (tryMatchAt_cons_ne_g '/' _ (by decide)),
        findUrlMatch_cons_none _ _ (tryMatchAt_cons_ne_g '/' _ (by decide))]
      rw [show "github.com/".data ++ (owner.data ++ '/' :: repo.data) =
        'g' :: ("ithub.com/".data ++ (owner.data ++ '/' :: repo.data)) from rfl]
      rw [findUrlMatch_cons_eq]
      rw [show 'g' :: ("ithub.com/".data ++ (owner.data ++ '/' :: repo.data)) =
        "github.com/".data ++ (owner.data ++ '/' :: repo.data) from rfl]
      rw [tryMatchAt_canonical_plain owner.data repo.data how hallo hrep hallr]

theorem parseGitHubUrl_spec_witness :
    GitHubService.parseGitHubUrl "https://github.com/octocat/Hello-World/tree/dev" =
      .ok ⟨"octocat",
        String.mk (GitHubService.replaceFirst ".git".data [] "Hello-World".data), "dev"⟩ ∧
    ¬GitHubService.urlPattern "not a url" := by
  constructor
  · exact (parseGitHubUrl_spec.2 "octocat" "Hello-World" "dev" (by decide) (by decide)
      (by decide) (by decide) (by decide) (by decide)).1
  · exact (parseGitHubUrl_spec.1 "not a url").mp ⟨"Invalid GitHub URL format", by decide⟩

end GitHubService

/-! ## OpenRouter service (githubService.js, `OpenRouterService` class)

The outbound `axios.post` is modelled by a `respond` function argument
mapping the assembled request body to either a response payload or a
transport/vendor failure. JS floats (`temperature`) are modelled by
rationals; the parsed `package.json` object is modelled by its interpolated
string form. -/

namespace OpenRouterService

/-- JS `x || 'default'` on a string: the default replaces the empty string. -/
def jsOrDefault (s d : String) : String := if s = "" then d else s

/-- The extension-to-language map of `OpenRouterService.detectLanguage`
(githubService.js line 456; it extends the GitHubService map with two
Docker entries). -/
def languageMap : List (String × String) :=
  [("js", "JavaScript"), ("ts", "TypeScript"), ("jsx", "React JSX"),
   ("tsx", "React TSX"), ("py", "Python"), ("java", "Java"), ("cpp", "C++"),
   ("c", "C"), ("cs", "C#"), ("php", "PHP"), ("rb", "Ruby"), ("go", "Go"),
   ("rs", "Rust"), ("swift", "Swift"), ("kt", "Kotlin"), ("scala", "Scala"),
   ("html", "HTML"), ("css", "CSS"), ("scss", "SCSS"), ("sass", "Sass"),
   ("json", "JSON"), ("xml", "XML"), ("yaml", "YAML"), ("yml", "YAML"),
   ("md", "Markdown"), ("txt", "Text"), ("sql", "SQL"), ("sh", "Shell"),
   ("bash", "Bash"), ("dockerfile", "Docker"), ("docker", "Docker")]

/-- `OpenRouterService.detectLanguage` (githubService.js line 456). -/
def detectLanguage (filename : String) : String :=
  match (languageMap.lookup (jsToLowerCase (GitHubService.lastDotSegment filename))) with
  | some l => l
  | none => "Unknown"

/-- `formatFileSize` (githubService.js line 495).  The float computation
`Math.floor(Math.log(bytes)/Math.log(1024))` and `toFixed(1)` rounding are
modelled by integer base-1024 logarithm and half-up rounding to one decimal,
with the trailing `.0` stripped as `parseFloat` does; an index beyond the
sizes array renders JS `undefined`. -/
def formatFileSize (bytes : Nat) : String :=
  if bytes = 0 then "0 B"
  else
    let i := Nat.log 1024 bytes
    let scaled := (bytes * 10 + 1024 ^ i / 2) / 1024 ^ i
    let rendered :=
      if scaled % 10 = 0 then toString (scaled / 10)
      else toString (scaled / 10) ++ "." ++ toString (scaled % 10)
    rendered ++ " " ++ (["B", "KB", "MB", "GB"].getD i "undefined")

/-- `formatFileStructure` (githubService.js line 443): at most 50 files,
one line each, with an optional size annotation (absent when `file.size` is
missing or zero, both falsy in JS). -/
def formatFileStructure (files : List GitHubService.RepoFile) : String :=
  if files.length = 0 then "No files available"
  else
    String.intercalate "\n" ((files.take 50).map (fun file =>
      "- " ++ file.name ++
        (match file.size with
         | some b => if b = 0 then "" else " (" ++ formatFileSize b ++ ")"
         | none => "") ++
      " [" ++ detectLanguage file.name ++ "]"))

/-- The `${readme ? ... : ''}` segment of the prompt template (an empty or
missing README is falsy and renders as the empty segment). -/
def readmeSection : Option String → String
  | some r => if r = "" then "" else "README Content:\n" ++ r ++ "\n"
  | none => ""

/-- The `${packageJson ? ... : ''}` segment of the prompt template. -/
def packageJsonSection : Option String → String
  | some p => if p = "" then "" else "Package.json:\n" ++ p ++ "\n"
  | none => ""

/-- The prompt's opening block, up to and including the blank line after
`- Total Lines:`. -/
def promptHeader (m : GitHubService.RepoMetadata) (format style : String) : String :=
  "Generate comprehensive " ++ style ++
    " documentation for this GitHub repository in " ++ jsToUpperCase format ++
    " format.\n\nRepository Information:\n- Name: " ++ m.repoName ++
    "\n- Owner: " ++ m.repoOwner ++
    "\n- Language: " ++ jsOrDefault m.language "Unknown" ++
    "\n- Framework: " ++ jsOrDefault m.framework "Unknown" ++
    "\n- Total Files: " ++ toString m.fileCount ++
    "\n- Total Lines: " ++ toString m.totalLines ++ "\n\n"

/-- The prompt from `Key Files Structure` to the end (the fixed
instructional suffix enumerating the seven documentation sections). -/
def promptRest (files : List GitHubService.RepoFile) (format : String) : String :=
  "\n\nKey Files Structure:\n" ++ formatFileStructure files ++
    "\n\nPlease create documentation that includes:\n\n1. **Project Overview**\n   - Brief description of what the project does\n   - Key features and capabilities\n   - Technology stack used\n\n2. **Installation Guide**\n   - Prerequisites\n   - Step-by-step installation instructions\n   - Environment setup\n\n3. **Usage Guide**\n   - How to run the project\n   - Basic usage examples\n   - Configuration options\n\n4. **API Documentation** (if applicable)\n   - Available endpoints\n   - Request/response formats\n   - Authentication methods\n\n5. **Development Guide**\n   - How to contribute\n   - Development setup\n   - Testing instructions\n\n6. **Architecture Overview**\n   - Project structure\n   - Key components\n   - Data flow\n\n7. **Troubleshooting**\n   - Common issues and solutions\n   - Debugging tips\n\nPlease ensure the documentation is:\n- Well-structured with clear headings\n- Easy to follow for new developers\n- Professional and comprehensive\n- Include code examples where relevant\n- Use proper " ++
    jsToUpperCase format ++ " formatting\n\nGenerate the complete documentation now:"

/-- `buildDocumentationPrompt` (githubService.js line 376). -/
def buildDocumentationPrompt (repoData : GitHubService.RepoData)
    (format style : String) : String :=
  promptHeader repoData.metadata format style ++ readmeSection repoData.readme ++ "\n" ++
    packageJsonSection repoData.packageJson ++ promptRest repoData.files format

/-- The recognized generation options; a missing field takes the
destructuring default. -/
structure GenerationOptions where
  model : Option String := none
  temperature : Option ℚ := none
  maxTokens : Option Nat := none
  format : Option String := none
  style : Option String := none
deriving DecidableEq, Repr

/-- Body of the outbound `POST /chat/completions`. -/
structure ChatRequest where
  model : String
  systemContent : String
  userContent : String
  temperature : ℚ
  maxTokens : Nat
  stream : Bool
deriving DecidableEq, Repr

/-- Payload extracted from a successful completion response. -/
structure GenResponse where
  content : String
  usage : String
  finishReason : String
deriving DecidableEq, Repr

/-- Result returned by `generateDocumentation`. -/
structure GenResult where
  content : String
  model : String
  usage : String
  finishReason : String
deriving DecidableEq, Repr

/-- `generateDocumentation` (githubService.js line 328): destructure the
options with defaults, build the prompt, send one request, and either
return the content with the chosen model or wrap the failure message.
There is no model allow-list anywhere in this path. -/
def generateDocumentation (repoData : GitHubService.RepoData)
    (options : GenerationOptions)
    (respond : ChatRequest → Except String GenResponse) : Except String GenResult :=
  let model := options.model.getD "anthropic/claude-3.5-sonnet"
  let temperature := options.temperature.getD (3 / 10)
  let maxTokens := options.maxTokens.getD 4000
  let format := options.format.getD "markdown"
  let style := options.style.getD "professional"
  let prompt := buildDocumentationPrompt repoData format style
  let req : ChatRequest :=
    { model := model,
      systemContent := "You are an expert software documentation writer. Generate clear, comprehensive, and professional documentation.",
      userContent := prompt,
      temperature := temperature,
      maxTokens := maxTokens,
      stream := false }
  match respond req with
  | .ok resp =>
    .ok { content := resp.content, model := model, usage := resp.usage,
          finishReason := resp.finishReason }
  | .error e => .error ("AI generation failed: " ++ e)

/-- One entry of the vendor model catalog. -/
structure OpenRouterModel where
  id : String
  name : String
deriving DecidableEq, Repr

/-- `getAvailableModels` (githubService.js line 503): filter the catalog to
ids containing `claude`, `gpt` or `gemini`; any failure yields `[]`. -/
def getAvailableModels (resp : Except Unit (List OpenRouterModel)) :
    List OpenRouterModel :=
  match resp with
  | .ok data =>
    data.filter (fun m =>
      jsIncludes m.id "claude" || jsIncludes m.id "gpt" || jsIncludes m.id "gemini")
  | .error _ => []

/-- C4 amended: the default model is used exactly when the `model` option is
absent; any provided identifier — recognized or not — is sent upstream
unchanged (probed by a responder echoing the request's model) and reported
back in the result's `model` field.  No allow-list check exists. -/
theorem generateDocumentation_model_passthrough (repoData : GitHubService.RepoData)
    (options : GenerationOptions) :
    generateDocumentation repoData options (fun req => .error req.model) =
      .error ("AI generation failed: " ++ options.model.getD "anthropic/claude-3.5-sonnet") ∧
    ∀ resp : GenResponse,
      (generateDocumentation repoData options (fun _ => .ok resp)).map (fun r => r.model) =
        .ok (options.model.getD "anthropic/claude-3.5-sonnet") :=
  ⟨rfl, fun _ => rfl⟩

theorem generateDocumentation_model_passthrough_witness :
    OpenRouterService.generateDocumentation
        ⟨⟨"Unknown", "Unknown", 0, 0, [], false, false, false, false, "r", "o", "main", "u"⟩,
          [], none, none, ⟨"r", none, none, 0, 0, 0, "main", [], none, none⟩⟩
        { model := some "mistral/mistral-large" }
        (fun req => .error req.model) =
      .error ("AI generation failed: " ++
        (some "mistral/mistral-large").getD "anthropic/claude-3.5-sonnet") :=
  (generateDocumentation_model_passthrough
    ⟨⟨"Unknown", "Unknown", 0, 0, [], false, false, false, false, "r", "o", "main", "u"⟩,
      [], none, none, ⟨"r", none, none, 0, 0, 0, "main", [], none, none⟩⟩
    { model := some "mistral/mistral-large" }).1

/-- C4 counterexample: the unrecognized identifier "not-a-real-model" is
sent upstream verbatim (the echoing responder sees it), not replaced by the
default model. -/
theorem generateDocumentation_unrecognized_model_sent_upstream :
    OpenRouterService.generateDocumentation
        ⟨⟨"Unknown", "Unknown", 0, 0, [], false, false, false, false, "r", "o", "main", "u"⟩,
          [], none, none, ⟨"r", none, none, 0, 0, 0, "main", [], none, none⟩⟩
        { model := some "not-a-real-model" }
        (fun req => .error req.model) =
      .error "AI generation failed: not-a-real-model" ∧
    ("not-a-real-model" : String) ≠ "anthropic/claude-3.5-sonnet" := by
  constructor
  · rfl
  · decide

/-- C7 amended: the model catalog is filtered to ids containing one of the
fixed substrings, and any catalog failure yields the empty list — there is
no hardcoded fallback list. -/
theorem getAvailableModels_filter_or_empty :
    (∀ e : Unit, getAvailableModels (.error e) = []) ∧
    (∀ (data : List OpenRouterModel) (m : OpenRouterModel),
      m ∈ getAvailableModels (.ok data) ↔
        m ∈ data ∧
          (jsIncludes m.id "claude" || jsIncludes m.id "gpt" ||
            jsIncludes m.id "gemini") = true) := by
  refine ⟨fun e => rfl, ?_⟩
  intro data m
  simp [getAvailableModels, List.mem_filter]

theorem getAvailableModels_filter_or_empty_witness :
    (⟨"anthropic/claude-3.5-sonnet", "Claude"⟩ : OpenRouterService.OpenRouterModel) ∈
      OpenRouterService.getAvailableModels
        (.ok [⟨"anthropic/claude-3.5-sonnet", "Claude"⟩, ⟨"meta/llama-3", "Llama"⟩]) ↔
      (⟨"anthropic/claude-3.5-sonnet", "Claude"⟩ : OpenRouterService.OpenRouterModel) ∈
          [⟨"anthropic/claude-3.5-sonnet", "Claude"⟩,
            (⟨"meta/llama-3", "Llama"⟩ : OpenRouterService.OpenRouterModel)] ∧
        (jsIncludes "anthropic/claude-3.5-sonnet" "claude" ||
          jsIncludes "anthropic/claude-3.5-sonnet" "gpt" ||
          jsIncludes "anthropic/claude-3.5-sonnet" "gemini") = true :=
  getAvailableModels_filter_or_empty.2
    [⟨"anthropic/claude-3.5-sonnet", "Claude"⟩, ⟨"meta/llama-3", "Llama"⟩]
    ⟨"anthropic/claude-3.5-sonnet", "Claude"⟩

/-- C7 counterexample: on catalog failure the operation returns the empty
list, not a non-empty hardcoded fallback. -/
theorem getAvailableModels_failure_returns_empty :
    OpenRouterService.getAvailableModels (.error ()) =
      ([] : List OpenRouterService.OpenRouterModel) ∧
    (OpenRouterService.getAvailableModels (.error ())).length = 0 := by
  constructor
  · rfl
  · rfl

/-- C8: the prompt builder is a total function (its model is a plain Lean
function, with no exceptional path to model), and when the README and/or the
manifest are absent the corresponding segments are rendered empty, leaving
everything around them unchanged. -/
theorem buildDocumentationPrompt_omits_absent_sections (d : GitHubService.RepoData)
    (format style : String) :
    ∃ pre mid post : String,
      buildDocumentationPrompt { d with readme := none, packageJson := none }
          format style = pre ++ mid ++ post ∧
      (∀ r : String, r ≠ "" →
        buildDocumentationPrompt { d with readme := some r, packageJson := none }
            format style =
          pre ++ ("README Content:\n" ++ r ++ "\n") ++ mid ++ post) ∧
      (∀ p : String, p ≠ "" →
        buildDocumentationPrompt { d with readme := none, packageJson := some p }
            format style =
          pre ++ mid ++ ("Package.json:\n" ++ p ++ "\n") ++ post) := by
  refine ⟨promptHeader d.metadata format style, "\n", promptRest d.files format, ?_, ?_, ?_⟩
  · simp [buildDocumentationPrompt, readmeSection, packageJsonSection, String.append_empty]
  · intro r hr
    simp [buildDocumentationPrompt, readmeSection, packageJsonSection, hr,
      String.append_empty]
  · intro p hp
    simp [buildDocumentationPrompt, readmeSection, packageJsonSection, hp,
      String.append_empty]

theorem buildDocumentationPrompt_omits_absent_sections_witness :
    ∃ pre mid post : String,
      OpenRouterService.buildDocumentationPrompt
          ⟨⟨"Unknown", "Unknown", 0, 0, [], false, false, false, false, "r", "o", "main", "u"⟩,
            [], none, none, ⟨"r", none, none, 0, 0, 0, "main", [], none, none⟩⟩
          "markdown" "professional" = pre ++ mid ++ post ∧
      OpenRouterService.buildDocumentationPrompt
          ⟨⟨"Unknown", "Unknown", 0, 0, [], false, false, false, false, "r", "o", "main", "u"⟩,
            [], some "Hello", none, ⟨"r", none, none, 0, 0, 0, "main", [], none, none⟩⟩
          "markdown" "professional" =
        pre ++ ("README Content:\nHello\n" : String) ++ mid ++ post := by
  obtain ⟨pre, mid, post, h1, h2, h3⟩ :=
    buildDocumentationPrompt_omits_absent_sections
      ⟨⟨"Unknown", "Unknown", 0, 0, [], false, false, false, false, "r", "o", "main", "u"⟩,
        [], none, none, ⟨"r", none, none, 0, 0, 0, "main", [], none, none⟩⟩
      "markdown" "professional"
  refine ⟨pre, mid, post, h1, ?_⟩
  have := h2 "Hello" (by decide)
  simpa using this

end OpenRouterService

/-! ## Export service: `exportToPDF` / `markdownToHTML`
(exportService.js lines 35-168)

The third-party `marked` renderer is a function parameter; the file-system
write is modelled by returning the written path and contents next to the
descriptor. -/

namespace ExportService

/-- Descriptor returned by the export operations. -/
structure ExportDescriptor where
  format : String
  url : String
  filePath : String
  size : Nat
  note : Option String
deriving DecidableEq, Repr

/-- The file-system effect of one export: the path written and its
contents (whose byte size is what `fs.statSync(path).size` reports). -/
structure WrittenFile where
  path : String
  contents : String
deriving DecidableEq, Repr

/-- `path.join(dir, file)`; Node's separator normalisation is irrelevant
here and modelled by plain concatenation. -/
def joinPath (dir file : String) : String := dir ++ "/" ++ file

/-- The HTML document template of `markdownToHTML` before the `${html}`
interpolation point (exportService.js lines 90-163). -/
def htmlTemplateOpen : String :=
  "\n      <!DOCTYPE html>\n      <html>\n      <head>\n        <meta charset=\"UTF-8\">\n        <title>Documentation</title>\n        <style>\n          body \x7b\n            font-family: -apple-system, BlinkMacSystemFont, \x27Segoe UI\x27, Roboto, sans-serif;\n            line-height: 1.6;\n            color: #333;\n            max-width: 800px;\n            margin: 0 auto;\n            padding: 20px;\n          \x7d\n          h1, h2, h3, h4, h5, h6 \x7b\n            color: #2c3e50;\n            margin-top: 1.5em;\n            margin-bottom: 0.5em;\n          \x7d\n          h1 \x7b font-size: 2em; border-bottom: 2px solid #eee; padding-bottom: 0.3em; \x7d\n          h2 \x7b font-size: 1.5em; border-bottom: 1px solid #eee; padding-bottom: 0.3em; \x7d\n          h3 \x7b font-size: 1.25em; \x7d\n          code \x7b\n            background-color: #f6f8fa;\n            padding: 0.2em 0.4em;\n            border-radius: 3px;\n            font-family: \x27SFMono-Regular\x27, Consolas, \x27Liberation Mono\x27, Menlo, monospace;\n            font-size: 0.9em;\n          \x7d\n          pre \x7b\n            background-color: #f6f8fa;\n            padding: 16px;\n            border-radius: 6px;\n            overflow-x: auto;\n          \x7d\n          pre code \x7b\n            background-color: transparent;\n            padding: 0;\n          \x7d\n          blockquote \x7b\n            border-left: 4px solid #ddd;\n            margin: 0;\n            padding-left: 1em;\n            color: #666;\n          \x7d\n          table \x7b\n            border-collapse: collapse;\n            width: 100%;\n            margin: 1em 0;\n          \x7d\n          th, td \x7b\n            border: 1px solid #ddd;\n            padding: 8px 12px;\n            text-align: left;\n          \x7d\n          th \x7b\n            background-color: #f6f8fa;\n            font-weight: 600;\n          \x7d\n          img \x7b\n            max-width: 100%;\n            height: auto;\n          \x7d\n          a \x7b\n            color: #0366d6;\n            text-decoration: none;\n          \x7d\n          a:hover \x7b\n            text-decoration: underline;\n          \x7d\n        </style>\n      </head>\n      <body>\n        "

/-- The HTML document template after the `${html}` interpolation point. -/
def htmlTemplateClose : String :=
  "\n      </body>\n      </html>\n    "

/-- `markdownToHTML` (exportService.js line 80): the third-party `marked`
conversion (configured for GFM) wrapped in the styled HTML template. -/
def markdownToHTML (marked : String → String) (markdown : String) : String :=
  htmlTemplateOpen ++ marked markdown ++ htmlTemplateClose

/-- `exportToPDF` (exportService.js line 35): converts the Markdown to the
styled HTML document, writes it to `<uploadDir>/<filename>.html`, and
returns a descriptor with format "pdf", the `.html` download url and path,
the written size, and the conversion note. -/
def exportToPDF (marked : String → String) (uploadDir content filename : String) :
    ExportDescriptor × WrittenFile :=
  let htmlContent := markdownToHTML marked content
  let htmlPath := joinPath uploadDir (filename ++ ".html")
  ({ format := "pdf",
     url := "/uploads/" ++ filename ++ ".html",
     filePath := htmlPath,
     size := htmlContent.utf8ByteSize,
     note := some "HTML file generated. Use browser print to PDF or a PDF service." },
   { path := htmlPath, contents := htmlContent })

/-- JS `s.endsWith(p)`. -/
def jsEndsWith (s p : String) : Bool :=
  List.isPrefixOf p.data.reverse s.data.reverse

theorem jsEndsWith_append (a b : String) : jsEndsWith (a ++ b) b = true := by
  simp only [jsEndsWith, String.data_append, List.reverse_append]
  exact isPrefixOf_self_append _ _

/-- C9: for every document content, the pdf export writes an `.html` file
(not a PDF) whose contents are the marked-rendered Markdown wrapped in the
styled template, and the descriptor reports format "pdf", a url and file
path both ending in `.html`, the written file's byte size, and the note
about the missing true-PDF conversion step. -/
theorem exportToPDF_writes_styled_html (marked : String → String)
    (uploadDir content filename : String) :
    (exportToPDF marked uploadDir content filename).1.format = "pdf" ∧
    jsEndsWith (exportToPDF marked uploadDir content filename).1.url ".html" = true ∧
    (exportToPDF marked uploadDir content filename).1.filePath =
      (exportToPDF marked uploadDir content filename).2.path ∧
    jsEndsWith (exportToPDF marked uploadDir content filename).2.path ".html" = true ∧
    (exportToPDF marked uploadDir content filename).1.size =
      (exportToPDF marked uploadDir content filename).2.contents.utf8ByteSize ∧
    (exportToPDF marked uploadDir content filename).2.contents =
      htmlTemplateOpen ++ marked content ++ htmlTemplateClose ∧
    (exportToPDF marked uploadDir content filename).1.note =
      some "HTML file generated. Use browser print to PDF or a PDF service." := by
  refine ⟨rfl, ?_, rfl, ?_, rfl, rfl, rfl⟩
  · show jsEndsWith ("/uploads/" ++ filename ++ ".html") ".html" = true
    exact jsEndsWith_append ("/uploads/" ++ filename) ".html"
  · show jsEndsWith (joinPath uploadDir (filename ++ ".html")) ".html" = true
    have h : joinPath uploadDir (filename ++ ".html") =
        (uploadDir ++ "/" ++ filename) ++ ".html" := by
      simp [joinPath, String.append_assoc]
    rw [h]
    exact jsEndsWith_append (uploadDir ++ "/" ++ filename) ".html"

theorem exportToPDF_writes_styled_html_witness :
    (ExportService.exportToPDF (fun s => s) "./uploads" "# Title" "doc").1.format = "pdf" ∧
    ExportService.jsEndsWith
      (ExportService.exportToPDF (fun s => s) "./uploads" "# Title" "doc").1.url
      ".html" = true :=
  ⟨(exportToPDF_writes_styled_html (fun s => s) "./uploads" "# Title" "doc").1,
    (exportToPDF_writes_styled_html (fun s => s) "./uploads" "# Title" "doc").2.1⟩

end ExportService

end DocCreator
